import Mathlib

/-!
Shallow embedding of the tunnelblick_cli_monitor repository
(src/vpn_monitor.py and src/tunnelblick_vpn.py).

The external effects (AppleScript bridge, keychain, terminal input,
real time) are modelled as explicit inputs: the status parser is a pure
function of the bridge's output blob, the connect/disconnect wait loops
are functions of the sequence of statuses the poller would observe, the
token prompt is a function of the sequence of user input lines, the
keychain is a function value, and the monitor loop is a state machine
driven by a list of per-cycle outcomes.

Python strings are modelled as Lean `String` / `List Char`; Python
`str.find`, `in`, `str.split(sep)`, slicing and `str.strip()` are
reimplemented below with their Python semantics (for the ASCII
character ranges that occur in this program).
-/

namespace TbVpn

/-- Whitespace characters stripped by Python `str.strip()` (ASCII range). -/
def isPyWs (c : Char) : Bool :=
  decide (c = ' ') || decide (c = '\t') || decide (c = '\n') ||
  decide (c = '\r') || decide (c = '\x0b') || decide (c = '\x0c')

/-- Python `str.strip()` on a character list. -/
def pyStrip (l : List Char) : List Char :=
  ((l.dropWhile isPyWs).reverse.dropWhile isPyWs).reverse

/-- Index of the first occurrence of `sub` in `l` (Python `str.find`,
with `none` for Python's `-1`). -/
def listFind (sub : List Char) : List Char → Option Nat
  | [] => if sub = [] then some 0 else none
  | c :: cs => if sub.isPrefixOf (c :: cs) then some 0 else (listFind sub cs).map (· + 1)

/-- Occurrence test of `sub` at position `i` of `l`. -/
def occursAtB (sub l : List Char) (i : Nat) : Bool :=
  sub.isPrefixOf (l.drop i)

/-- Python `sub in l` substring test. -/
def containsSub (l sub : List Char) : Bool :=
  (listFind sub l).isSome

/-- Python `l.find(sub, start)`: first occurrence at index `≥ start`. -/
def listFindFrom (sub l : List Char) (start : Nat) : Option Nat :=
  (listFind sub (l.drop start)).map (· + start)

/-- Fuel-driven worker for Python `str.split(sep)` (nonempty `sep`).
Each step consumes at least one character, so fuel `l.length` suffices. -/
def splitOnAux (sep : List Char) : Nat → List Char → List (List Char)
  | 0, l => [l]
  | fuel + 1, l =>
    match listFind sep l with
    | none => [l]
    | some i => l.take i :: splitOnAux sep fuel (l.drop (i + sep.length))

/-- Python `str.split(sep)` for a nonempty separator `sep`. -/
def splitOnSub (sep l : List Char) : List (List Char) :=
  if sep = [] then [l] else splitOnAux sep l.length l

/-- Body of the per-chunk state extraction in `_get_vpn_status`
(both files, identical): locate `state:`, cut at the following comma
(or end of chunk), strip.  Returns `none` when the chunk has no
`state:` field, in which case the Python loop falls through to the
next chunk. -/
def stateFromChunk (chunk : List Char) : Option (List Char) :=
  match listFind ("state:".data) chunk with
  | none => none
  | some i =>
    let e :=
      match listFindFrom [','] chunk i with
      | none => chunk.length
      | some j => j
    some (pyStrip ((chunk.drop (i + 6)).take (e - (i + 6))))

/-- The `for config_block in configs` loop of `_get_vpn_status`. -/
def statusFromChunks (config_name : List Char) : List (List Char) → List Char
  | [] => "NOT_FOUND".data
  | chunk :: rest =>
    if containsSub chunk ("name:".data ++ config_name) then
      match stateFromChunk chunk with
      | some s => s
      | none => statusFromChunks config_name rest
    else statusFromChunks config_name rest

/-- Embedding of `_get_vpn_status(config_name)` as a pure function of
the blob returned by the AppleScript bridge (`result`).  Mirrors
src/vpn_monitor.py lines 43-75 and src/tunnelblick_vpn.py lines 63-95. -/
def get_vpn_status (config_name result : String) : String :=
  if result = "" then "UNKNOWN"
  else ⟨statusFromChunks config_name.data (splitOnSub ("class:configuration".data) result.data)⟩

/-- Test `"EXITING" in status or "DISCONNECTED" in status` from the
polling loops. -/
def statusBad (s : String) : Bool :=
  containsSub s.data ("EXITING".data) || containsSub s.data ("DISCONNECTED".data)

/-- The `for i in range(30)` wait loop of `_connect_vpn`, as a function
of the sequence of statuses the poller observes; `i` is the index of
the next poll and the second argument the remaining iterations. -/
def connectWaitLoop (status : Nat → String) : Nat → Nat → Bool
  | _, 0 => false
  | i, fuel + 1 =>
    if status i = "CONNECTED" then true
    else if statusBad (status i) then false
    else connectWaitLoop status (i + 1) fuel

/-- Embedding of the polling phase of `_connect_vpn` (src/vpn_monitor.py
lines 131-139, src/tunnelblick_vpn.py lines 152-161). -/
def connect_vpn (status : Nat → String) : Bool :=
  connectWaitLoop status 0 30

/-- The `for i in range(10)` wait loop of `_disconnect_vpn`. -/
def disconnectWaitLoop (status : Nat → String) : Nat → Nat → Bool
  | _, 0 => false
  | i, fuel + 1 =>
    if statusBad (status i) then true else disconnectWaitLoop status (i + 1) fuel

/-- Embedding of the polling phase of `_disconnect_vpn`
(src/tunnelblick_vpn.py lines 183-189). -/
def disconnect_vpn (status : Nat → String) : Bool :=
  disconnectWaitLoop status 0 10

/-- Python `str.isdigit()` for the ASCII range. -/
def pyIsDigit (s : String) : Bool :=
  decide (s ≠ "") && s.data.all Char.isDigit

/-- The `while True` loop of `VPNMonitor._get_yubikey_token`
(src/vpn_monitor.py lines 227-231) as a function of the sequence of
input lines; the loop in the source is unbounded, so the embedding
takes fuel and returns `none` only when the fuel runs out before a
valid token is entered. -/
def get_yubikey_token (inputs : Nat → String) : Nat → Nat → Option String
  | _, 0 => none
  | i, fuel + 1 =>
    let t : String := ⟨pyStrip (inputs i).data⟩
    if pyIsDigit t && decide (t.length = 6) then some t
    else get_yubikey_token inputs (i + 1) fuel

/-- Result of one keyring call: a value (possibly absent) or a raised
vault error. -/
inductive VaultResult
  | ok (v : Option String)
  | err
  deriving DecidableEq

/-- The system keychain, as a map from (service, key) to a result. -/
def Vault : Type := String → String → VaultResult

/-- A vault in which nothing was ever written. -/
def emptyVault : Vault := fun _ _ => .ok none

/-- Embedding of `_store_credentials` (src/vpn_monitor.py lines
142-152): `keyring.set_password(f"tunnelblick_vpn_{config_name}",
"prefix", value)`. -/
def store_credentials (vault : Vault) (config_name cred : String) : Vault :=
  fun service key =>
    if service = "tunnelblick_vpn_" ++ config_name ∧ key = "prefix" then .ok (some cred)
    else vault service key

/-- Embedding of `_get_stored_credentials` (src/vpn_monitor.py lines
155-169): reads the same entry, swallowing any vault exception into
`None`. -/
def get_stored_credentials (vault : Vault) (config_name : String) : Option String :=
  match vault ("tunnelblick_vpn_" ++ config_name) "prefix" with
  | .ok v => v
  | .err => none

/-- Python truthiness of an `Optional[str]` (`not prefix` is true for
both `None` and `""`). -/
def pyFalsyStrOpt : Option String → Bool
  | none => true
  | some s => decide (s = "")

/-- State of a `VPNMonitor` relevant to the monitor loop. -/
structure MonState where
  running : Bool
  reconnect_count : Nat
  deriving DecidableEq

/-- One iteration's worth of external events for the monitor loop:
either a normal cycle (polled status, reachability probe outcome,
outcome of `_connect_vpn` if attempted, and whether a shutdown signal
arrived during the body resp. during the interval sleep), or a
`KeyboardInterrupt` in the body, or any other exception in the body. -/
inductive CycleOutcome
  | normal (status : String) (internet : Bool) (connectOk : Bool)
      (sigBody : Bool) (sigSleep : Bool)
  | interrupt
  | exc
  deriving DecidableEq

/-- Result of one loop iteration: new state, whether the interval
sleep was performed, whether the loop breaks (`KeyboardInterrupt`). -/
structure StepOut where
  st : MonState
  slept : Bool
  brk : Bool
  deriving DecidableEq

/-- The reconnect-counter update of one normal monitor cycle
(src/vpn_monitor.py lines 289-308): reset to 0 on `CONNECTED`,
incremented when a reconnect attempt succeeds, unchanged otherwise. -/
def nextCount (status : String) (internet connectOk : Bool) (c : Nat) : Nat :=
  if status = "CONNECTED" then 0
  else if internet then (if connectOk then c + 1 else c) else c

/-- One iteration of the `while self.running` loop of
`VPNMonitor.start_monitoring` (src/vpn_monitor.py lines 284-318).
A signal during the body clears `running` before the `if self.running`
pre-sleep check (so the sleep is skipped); a signal during the sleep
clears it afterwards.  `KeyboardInterrupt` breaks; any other exception
is caught, 5-second pause, state untouched, loop continues. -/
def monStep (st : MonState) : CycleOutcome → StepOut
  | .normal status internet ok sigB sigS =>
    let c := nextCount status internet ok st.reconnect_count
    let r1 := st.running && !sigB
    { st := { running := r1 && !sigS, reconnect_count := c }, slept := r1, brk := false }
  | .interrupt => { st := st, slept := false, brk := true }
  | .exc => { st := st, slept := false, brk := false }

/-- The monitor loop run on a list of cycle outcomes; returns the final
state and the number of cycles whose body was entered (each entered
cycle performs a status poll). -/
def monRun (st : MonState) : List CycleOutcome → MonState × Nat
  | [] => (st, 0)
  | inp :: rest =>
    if st.running then
      let o := monStep st inp
      if o.brk then (o.st, 1)
      else
        let r := monRun o.st rest
        (r.1, r.2 + 1)
    else (st, 0)

/-- Embedding of the startup gate of `VPNMonitor.start_monitoring`
(src/vpn_monitor.py lines 273-282): `none` when the stored prefix is
falsy (absent or empty) and the method returns before `self.running =
True`; otherwise the initial RUNNING state. -/
def start_monitoring_init (vault : Vault) (config_name : String) : Option MonState :=
  if pyFalsyStrOpt (get_stored_credentials vault config_name) then none
  else some { running := true, reconnect_count := 0 }

/-- Observable outcome of `VPNMonitor.test_connection`:
`noCredentials` means it returned `False` before prompting for a token
or invoking `_connect_vpn`; `attempted p b` means it prompted, built
the full password `p = stored ++ token` and returned `_connect_vpn`'s
result `b`. -/
inductive TestOutcome
  | noCredentials
  | attempted (fullPassword : String) (ok : Bool)
  deriving DecidableEq

/-- Embedding of `VPNMonitor.test_connection` (src/vpn_monitor.py lines
251-267); `token` is the token the user would enter, `connectOk` the
outcome of `_connect_vpn` on a given full password. -/
def test_connection (vault : Vault) (config_name token : String)
    (connectOk : String → Bool) : TestOutcome :=
  match get_stored_credentials vault config_name with
  | none => .noCredentials
  | some s => if s = "" then .noCredentials
              else .attempted (s ++ token) (connectOk (s ++ token))

/-- A cycle outcome carrying no shutdown signal and no keyboard
interrupt leaves the loop running. -/
def noSignal : CycleOutcome → Prop
  | .normal _ _ _ sigB sigS => sigB = false ∧ sigS = false
  | _ => True

def sepCC : List Char := "class:configuration".data

/-- Check that no 's' in the list is immediately followed by ':'. -/
def noSCb : List Char → Bool
  | [] => true
  | [_] => true
  | c1 :: c2 :: rest => !(decide (c1 = 's') && decide (c2 = ':')) && noSCb (c2 :: rest)

/-- Character allowed in a rendered name or state value. -/
def okChar (c : Char) : Bool :=
  decide (c ≠ ':') && decide (c ≠ ',') && !(isPyWs c)

/-- String of allowed characters. -/
def okStr (s : String) : Bool := s.data.all okChar

/-- Fixed text before the state value in a rendered record. -/
def chunkHeadPre : List Char := "autoconnect:NO, state:".data

/-- Fixed text between the state value and the name value. -/
def chunkMid : List Char := ", bytesOut:0, name:".data

/-- Fixed text after the name value, before the separator. -/
def chunkClose : List Char := ", ".data

/-- Fixed text after the separator in a rendered record. -/
def tailPiece : List Char := ", bytesIn:0".data

/-- The part of a rendered record strictly before `class:configuration`. -/
def chunkHead (st nm : String) : List Char :=
  chunkHeadPre ++ st.data ++ chunkMid ++ nm.data ++ chunkClose

/-- A full rendered record with state `st` and name `nm`. -/
def renderRecord (st nm : String) : List Char :=
  chunkHead st nm ++ sepCC ++ tailPiece

/-- The chunk produced for a non-first record when the blob is split on
`class:configuration`: tail of the previous record, the joining comma,
then the head of this record. -/
def midChunk (st nm : String) : List Char :=
  tailPiece ++ ", ".data ++ chunkHead st nm

/-- A well-formed status blob for a list of (state, name) records,
comma-joined as in the AppleScript output. -/
def renderBlob : List (String × String) → List Char
  | [] => []
  | [r] => renderRecord r.1 r.2
  | r :: r2 :: rs => renderRecord r.1 r.2 ++ ", ".data ++ renderBlob (r2 :: rs)

/-- Everything of a blob after the first separator. -/
def blobTail : List (String × String) → List Char
  | [] => tailPiece
  | r :: rs => tailPiece ++ ", ".data ++ chunkHead r.1 r.2 ++ sepCC ++ blobTail rs

/-- A well-formed single-record blob in which the state field is the
last field of the record, with no trailing comma (the boundary case of
the extraction: `state_end` falls back to the chunk length). -/
def endBlob (nm st : String) : List Char :=
  "autoconnect:NO, name:".data ++ nm.data ++ ", state:".data ++ st.data

/-! Basic toolkit: lemmas about `isPrefixOf`, `occursAtB`, `listFind`,
`splitOnAux` and list indexing, used to reason about the status parser. -/

theorem getElem?_append_left' {α} {x : List α} (y : List α) {p : Nat} (h : p < x.length) :
    (x ++ y)[p]? = x[p]? := by
  rw [List.getElem?_append]
  simp [h]

theorem getElem?_append_right' {α} (x : List α) {y : List α} (p : Nat) :
    (x ++ y)[x.length + p]? = y[p]? := by
  rw [List.getElem?_append]
  simp

theorem mem_of_getElem?' {α} {l : List α} {p : Nat} {c : α} (h : l[p]? = some c) : c ∈ l := by
  obtain ⟨hlt, he⟩ := List.getElem?_eq_some.mp h
  exact he ▸ l.getElem_mem hlt

theorem nil_isPrefixOf (l : List Char) : List.isPrefixOf [] l = true := by
  cases l <;> rfl

theorem cons_isPrefixOf_cons (a b : Char) (as bs : List Char) :
    List.isPrefixOf (a :: as) (b :: bs) = (a == b && as.isPrefixOf bs) := rfl

theorem cons_isPrefixOf_nil (a : Char) (as : List Char) :
    List.isPrefixOf (a :: as) [] = false := rfl

theorem isPrefixOf_self_append (x y : List Char) : x.isPrefixOf (x ++ y) = true := by
  induction x with
  | nil => exact nil_isPrefixOf y
  | cons c cs ih => simp [cons_isPrefixOf_cons, ih]

theorem isPrefixOf_refl' (x : List Char) : x.isPrefixOf x = true := by
  have := isPrefixOf_self_append x []
  rwa [List.append_nil] at this

theorem isPrefixOf_length {s l : List Char} (h : s.isPrefixOf l = true) :
    s.length ≤ l.length := by
  induction s generalizing l with
  | nil => simp
  | cons c cs ih =>
    cases l with
    | nil => rw [cons_isPrefixOf_nil] at h; cases h
    | cons d ds =>
      rw [cons_isPrefixOf_cons, Bool.and_eq_true] at h
      have := ih h.2
      simpa using Nat.succ_le_succ this

theorem isPrefixOf_getElem {s l : List Char} (h : s.isPrefixOf l = true) {k : Nat}
    (hk : k < s.length) : l[k]? = s[k]? := by
  induction s generalizing l k with
  | nil => simp at hk
  | cons c cs ih =>
    cases l with
    | nil => rw [cons_isPrefixOf_nil] at h; cases h
    | cons d ds =>
      rw [cons_isPrefixOf_cons, Bool.and_eq_true, beq_iff_eq] at h
      obtain ⟨rfl, h2⟩ := h
      cases k with
      | zero => simp
      | succ k' =>
        simp only [List.getElem?_cons_succ]
        exact ih h2 (by simpa using hk)

theorem isPrefixOf_append_both (u v w : List Char) :
    (u ++ v).isPrefixOf (u ++ w) = v.isPrefixOf w := by
  induction u with
  | nil => rfl
  | cons c cs ih => simp [cons_isPrefixOf_cons, ih]

theorem isPrefixOf_split {u v l : List Char} (h : (u ++ v).isPrefixOf l = true) :
    u.isPrefixOf l = true ∧ v.isPrefixOf (l.drop u.length) = true := by
  induction u generalizing l with
  | nil => exact ⟨nil_isPrefixOf l, by simpa using h⟩
  | cons c cs ih =>
    cases l with
    | nil => rw [List.cons_append, cons_isPrefixOf_nil] at h; cases h
    | cons d ds =>
      rw [List.cons_append, cons_isPrefixOf_cons, Bool.and_eq_true] at h
      obtain ⟨h1, h2⟩ := h
      refine ⟨?_, (ih h2).2⟩
      rw [cons_isPrefixOf_cons, Bool.and_eq_true]
      exact ⟨h1, (ih h2).1⟩

theorem isPrefixOf_extend {x n z : List Char} (h : x.isPrefixOf n = true) :
    x.isPrefixOf (n ++ z) = true := by
  induction x generalizing n with
  | nil => exact nil_isPrefixOf _
  | cons c cs ih =>
    cases n with
    | nil => rw [cons_isPrefixOf_nil] at h; cases h
    | cons d ds =>
      rw [cons_isPrefixOf_cons, Bool.and_eq_true] at h
      rw [List.cons_append, cons_isPrefixOf_cons, Bool.and_eq_true]
      exact ⟨h.1, ih h.2⟩

theorem isPrefixOf_append_stop {x n t : List Char} (hx : ∀ c ∈ x, c ≠ ',') :
    x.isPrefixOf (n ++ ',' :: t) = x.isPrefixOf n := by
  induction x generalizing n with
  | nil => rw [nil_isPrefixOf, nil_isPrefixOf]
  | cons c cs ih =>
    cases n with
    | nil =>
      have hc : ¬ (c = ',') := hx c (by simp)
      rw [List.nil_append, cons_isPrefixOf_cons, cons_isPrefixOf_nil]
      simp [beq_iff_eq, hc]
    | cons d ds =>
      rw [List.cons_append, cons_isPrefixOf_cons, cons_isPrefixOf_cons,
        ih (fun c hc => hx c (by simp [hc]))]

theorem occursAtB_probe {sub l : List Char} {j : Nat} (h : occursAtB sub l j = true)
    {k : Nat} (hk : k < sub.length) : l[j + k]? = sub[k]? := by
  have := isPrefixOf_getElem h hk
  rwa [List.getElem?_drop] at this

theorem occursAtB_zero (sub l : List Char) : occursAtB sub l 0 = sub.isPrefixOf l := rfl

theorem occursAtB_cons_succ (sub : List Char) (c : Char) (l : List Char) (j : Nat) :
    occursAtB sub (c :: l) (j + 1) = occursAtB sub l j := rfl

theorem listFind_nil (sub : List Char) :
    listFind sub [] = if sub = [] then some 0 else none := rfl

theorem listFind_cons (sub : List Char) (c : Char) (cs : List Char) :
    listFind sub (c :: cs) =
      if sub.isPrefixOf (c :: cs) = true then some 0 else (listFind sub cs).map (· + 1) := by
  simp [listFind]

theorem listFind_some_occurs {sub l : List Char} {i : Nat} (h : listFind sub l = some i) :
    occursAtB sub l i = true := by
  induction l generalizing i with
  | nil =>
    rw [listFind_nil] at h
    by_cases hs : sub = []
    · rw [if_pos hs] at h
      cases h
      subst hs
      exact nil_isPrefixOf _
    · rw [if_neg hs] at h
      cases h
  | cons c cs ih =>
    rw [listFind_cons] at h
    by_cases hp : sub.isPrefixOf (c :: cs) = true
    · rw [if_pos hp] at h
      cases h
      exact hp
    · rw [if_neg hp] at h
      cases hf : listFind sub cs with
      | none => rw [hf] at h; cases h
      | some i' =>
        rw [hf] at h
        simp only [Option.map] at h
        cases h
        rw [occursAtB_cons_succ]
        exact ih hf

theorem listFind_some_min {sub l : List Char} {i : Nat} (h : listFind sub l = some i) :
    ∀ j < i, occursAtB sub l j = false := by
  induction l generalizing i with
  | nil =>
    rw [listFind_nil] at h
    by_cases hs : sub = []
    · rw [if_pos hs] at h; cases h; omega
    · rw [if_neg hs] at h; cases h
  | cons c cs ih =>
    rw [listFind_cons] at h
    by_cases hp : sub.isPrefixOf (c :: cs) = true
    · rw [if_pos hp] at h; cases h; omega
    · rw [if_neg hp] at h
      cases hf : listFind sub cs with
      | none => rw [hf] at h; cases h
      | some i' =>
        rw [hf] at h
        simp only [Option.map] at h
        cases h
        intro j hj
        cases j with
        | zero =>
          rw [occursAtB_zero]
          exact Bool.not_eq_true _ |>.mp hp
        | succ j' =>
          rw [occursAtB_cons_succ]
          exact ih hf j' (by omega)

theorem listFind_none_occurs {sub l : List Char} (h : listFind sub l = none) :
    ∀ j, occursAtB sub l j = false := by
  induction l with
  | nil =>
    rw [listFind_nil] at h
    by_cases hs : sub = []
    · rw [if_pos hs] at h; cases h
    · intro j
      simp only [occursAtB, List.drop_nil]
      cases sub with
      | nil => exact absurd rfl hs
      | cons a as => exact cons_isPrefixOf_nil a as
  | cons c cs ih =>
    rw [listFind_cons] at h
    by_cases hp : sub.isPrefixOf (c :: cs) = true
    · rw [if_pos hp] at h; cases h
    · rw [if_neg hp] at h
      cases hf : listFind sub cs with
      | some i' => rw [hf] at h; cases h
      | none =>
        intro j
        cases j with
        | zero =>
          rw [occursAtB_zero]
          exact Bool.not_eq_true _ |>.mp hp
        | succ j' =>
          rw [occursAtB_cons_succ]
          exact ih hf j'

theorem listFind_eq_some_of {sub l : List Char} {i : Nat}
    (hocc : occursAtB sub l i = true) (hmin : ∀ j < i, occursAtB sub l j = false) :
    listFind sub l = some i := by
  cases hf : listFind sub l with
  | none => rw [listFind_none_occurs hf i] at hocc; cases hocc
  | some i' =>
    rcases Nat.lt_trichotomy i i' with h | h | h
    · rw [listFind_some_min hf i h] at hocc; cases hocc
    · rw [h]
    · have h1 := listFind_some_occurs hf
      rw [hmin i' h] at h1
      cases h1

theorem listFind_eq_none_of {sub l : List Char}
    (h : ∀ j, occursAtB sub l j = false) : listFind sub l = none := by
  cases hf : listFind sub l with
  | none => rfl
  | some i =>
    have h1 := listFind_some_occurs hf
    rw [h i] at h1
    cases h1

theorem listFind_some_le {sub l : List Char} {i : Nat} (h : listFind sub l = some i) :
    i + sub.length ≤ l.length := by
  have hocc := listFind_some_occurs h
  have hlen := isPrefixOf_length hocc
  rw [List.length_drop] at hlen
  by_cases hle : i ≤ l.length
  · omega
  · exfalso
    rw [occursAtB, List.drop_eq_nil_of_le (by omega)] at hocc
    cases sub with
    | nil =>
      have h0 := listFind_some_min h 0 (by omega)
      rw [occursAtB] at h0
      rw [nil_isPrefixOf] at h0
      cases h0
    | cons a as => rw [cons_isPrefixOf_nil] at hocc; cases hocc

/-! Lemmas about `splitOnAux` and the record separator
`class:configuration`.  The key device: any occurrence of the separator
must place the character 's' immediately before a ':', so a chunk text
in which no 's' is directly followed by ':' (predicate `noSCb`) cannot
contain or overlap the separator. -/

theorem sepCC_ne_nil : sepCC ≠ [] := by decide

theorem splitOnAux_fuel {sep : List Char} (hsep : sep ≠ []) :
    ∀ f1 f2 l, l.length ≤ f1 → l.length ≤ f2 → splitOnAux sep f1 l = splitOnAux sep f2 l := by
  have hpos : 0 < sep.length := List.length_pos.mpr hsep
  intro f1
  induction f1 with
  | zero =>
    intro f2 l h1 _
    have hl : l = [] := List.eq_nil_of_length_eq_zero (by omega)
    subst hl
    cases f2 with
    | zero => rfl
    | succ g2 =>
      have hf : listFind sep [] = none := by rw [listFind_nil, if_neg hsep]
      simp [splitOnAux, hf]
  | succ g1 ih =>
    intro f2 l h1 h2
    cases f2 with
    | zero =>
      have hl : l = [] := List.eq_nil_of_length_eq_zero (by omega)
      subst hl
      have hf : listFind sep [] = none := by rw [listFind_nil, if_neg hsep]
      simp [splitOnAux, hf]
    | succ g2 =>
      cases hf : listFind sep l with
      | none => simp [splitOnAux, hf]
      | some i =>
        have hle := listFind_some_le hf
        simp only [splitOnAux, hf]
        congr 1
        exact ih g2 _ (by rw [List.length_drop]; omega) (by rw [List.length_drop]; omega)

theorem splitOnAux_none {sep l : List Char} {fuel : Nat} (hf : listFind sep l = none) :
    splitOnAux sep fuel l = [l] := by
  cases fuel with
  | zero => rfl
  | succ g => simp [splitOnAux, hf]

theorem splitOnAux_some {sep l : List Char} {fuel i : Nat} (hsep : sep ≠ [])
    (hfuel : l.length ≤ fuel) (hf : listFind sep l = some i) :
    splitOnAux sep fuel l =
      l.take i :: splitOnAux sep (l.drop (i + sep.length)).length (l.drop (i + sep.length)) := by
  have hpos : 0 < sep.length := List.length_pos.mpr hsep
  have hle := listFind_some_le hf
  cases fuel with
  | zero =>
    have hl : l = [] := List.eq_nil_of_length_eq_zero (by omega)
    subst hl
    rw [listFind_nil, if_neg hsep] at hf
    cases hf
  | succ g =>
    simp only [splitOnAux, hf]
    congr 1
    exact splitOnAux_fuel hsep g _ _ (by rw [List.length_drop]; omega) le_rfl

theorem noSCb_spec {a : List Char} (h : noSCb a = true) :
    ∀ m, ¬(a[m]? = some 's' ∧ a[m + 1]? = some ':') := by
  induction a with
  | nil => intro m hm; simp at hm
  | cons c rest ih =>
    intro m hm
    cases rest with
    | nil =>
      obtain ⟨h1, h2⟩ := hm
      cases m with
      | zero => simp at h2
      | succ m' => simp at h1
    | cons d ds =>
      rw [noSCb, Bool.and_eq_true] at h
      obtain ⟨hx, hrest⟩ := h
      cases m with
      | zero =>
        obtain ⟨h1, h2⟩ := hm
        simp only [List.getElem?_cons_zero, Option.some.injEq] at h1
        simp only [List.getElem?_cons_succ, List.getElem?_cons_zero, Option.some.injEq] at h2
        subst h1
        subst h2
        simp at hx
      | succ m' =>
        apply ih hrest m'
        obtain ⟨h1, h2⟩ := hm
        simp only [List.getElem?_cons_succ] at h1 h2
        exact ⟨h1, by simp only [List.getElem?_cons_succ]; exact h2⟩

theorem noSCb_append {x y : List Char} (hx : noSCb x = true) (hy : noSCb y = true)
    (hb : y[0]? ≠ some ':') : noSCb (x ++ y) = true := by
  induction x with
  | nil => simpa using hy
  | cons c cs ih =>
    cases cs with
    | nil =>
      cases y with
      | nil => rfl
      | cons d ds =>
        have hd : ¬(d = ':') := by simpa using hb
        show noSCb (c :: d :: ds) = true
        rw [noSCb, Bool.and_eq_true]
        exact ⟨by simp [hd], hy⟩
    | cons c2 cs2 =>
      rw [noSCb, Bool.and_eq_true] at hx
      show noSCb (c :: c2 :: (cs2 ++ y)) = true
      rw [noSCb, Bool.and_eq_true]
      exact ⟨hx.1, ih hx.2⟩

theorem noSCb_of_no_colon {a : List Char} (h : ∀ c ∈ a, c ≠ ':') : noSCb a = true := by
  induction a with
  | nil => rfl
  | cons c cs ih =>
    cases cs with
    | nil => rfl
    | cons d ds =>
      have hd : ¬(d = ':') := h d (by simp)
      rw [noSCb, Bool.and_eq_true]
      exact ⟨by simp [hd], ih (fun c' hc' => h c' (by simp at hc' ⊢; tauto))⟩

theorem sep_no_occurrence_before {a b : List Char} (ha : noSCb a = true) :
    ∀ j < a.length, occursAtB sepCC (a ++ (sepCC ++ b)) j = false := by
  intro j hj
  by_contra hcon
  rw [Bool.not_eq_false] at hcon
  have h4 : (a ++ (sepCC ++ b))[j + 4]? = sepCC[4]? := occursAtB_probe hcon (by decide)
  have h5 : (a ++ (sepCC ++ b))[j + 5]? = sepCC[5]? := occursAtB_probe hcon (by decide)
  rw [show sepCC[4]? = some 's' by decide] at h4
  rw [show sepCC[5]? = some ':' by decide] at h5
  by_cases hcase : j + 5 < a.length
  · rw [getElem?_append_left' _ (by omega)] at h4
    rw [getElem?_append_left' _ (by omega)] at h5
    refine noSCb_spec ha (j + 4) ⟨h4, ?_⟩
    rw [show j + 4 + 1 = j + 5 by omega]
    exact h5
  · have hsl : sepCC.length = 19 := by decide
    rw [show j + 5 = a.length + (j + 5 - a.length) by omega, getElem?_append_right'] at h5
    rw [getElem?_append_left' _ (by omega)] at h5
    have hno : ∀ o < 5, sepCC[o]? ≠ some ':' := by decide
    exact hno (j + 5 - a.length) (by omega) h5

theorem sep_no_occurrence {a : List Char} (ha : noSCb a = true) :
    ∀ j, occursAtB sepCC a j = false := by
  intro j
  by_contra hcon
  rw [Bool.not_eq_false] at hcon
  have h4 : a[j + 4]? = sepCC[4]? := occursAtB_probe hcon (by decide)
  have h5 : a[j + 5]? = sepCC[5]? := occursAtB_probe hcon (by decide)
  rw [show sepCC[4]? = some 's' by decide] at h4
  rw [show sepCC[5]? = some ':' by decide] at h5
  by_cases hcase : j + 5 < a.length
  · refine noSCb_spec ha (j + 4) ⟨h4, ?_⟩
    rw [show j + 4 + 1 = j + 5 by omega]
    exact h5
  · rw [List.getElem?_eq_none (by omega)] at h5
    cases h5

theorem listFind_sep {a : List Char} (b : List Char) (ha : noSCb a = true) :
    listFind sepCC (a ++ (sepCC ++ b)) = some a.length := by
  apply listFind_eq_some_of
  · rw [occursAtB, List.drop_left]
    exact isPrefixOf_self_append sepCC b
  · exact fun j hj => sep_no_occurrence_before ha j hj

theorem splitOnSub_step {a b : List Char} (ha : noSCb a = true) :
    splitOnSub sepCC (a ++ (sepCC ++ b)) = a :: splitOnSub sepCC b := by
  rw [splitOnSub, if_neg sepCC_ne_nil, splitOnSub, if_neg sepCC_ne_nil]
  rw [splitOnAux_some sepCC_ne_nil le_rfl (listFind_sep b ha)]
  have hd : (a ++ (sepCC ++ b)).drop (a.length + sepCC.length) = b := by
    rw [show a ++ (sepCC ++ b) = (a ++ sepCC) ++ b by simp [List.append_assoc]]
    rw [show a.length + sepCC.length = (a ++ sepCC).length by simp]
    exact List.drop_left _ _
  rw [hd, List.take_left]

theorem splitOnSub_single {a : List Char} (ha : noSCb a = true) :
    splitOnSub sepCC a = [a] := by
  rw [splitOnSub, if_neg sepCC_ne_nil]
  exact splitOnAux_none (listFind_eq_none_of (sep_no_occurrence ha))

/-! Model of well-formed status blobs.  The blob format is the one in
the source comment (src/vpn_monitor.py line 63): each record is
`autoconnect:NO, state:S, bytesOut:0, name:N, class:configuration,
bytesIn:0`, records joined by `, `.  Configuration names and states are
"plain" strings: no colon, no comma, no whitespace (`okChar`). -/

theorem okStr_no_colon {s : String} (h : okStr s = true) : ∀ c ∈ s.data, c ≠ ':' := by
  rw [okStr, List.all_eq_true] at h
  intro c hc
  have := h c hc
  rw [okChar, Bool.and_eq_true, Bool.and_eq_true] at this
  exact of_decide_eq_true this.1.1

theorem okStr_no_comma {s : String} (h : okStr s = true) : ∀ c ∈ s.data, c ≠ ',' := by
  rw [okStr, List.all_eq_true] at h
  intro c hc
  have := h c hc
  rw [okChar, Bool.and_eq_true, Bool.and_eq_true] at this
  exact of_decide_eq_true this.1.2

theorem okStr_no_ws {s : String} (h : okStr s = true) : ∀ c ∈ s.data, isPyWs c = false := by
  rw [okStr, List.all_eq_true] at h
  intro c hc
  have := h c hc
  rw [okChar, Bool.and_eq_true, Bool.and_eq_true] at this
  simpa using this.2

theorem renderBlob_decomp (r : String × String) (rs : List (String × String)) :
    renderBlob (r :: rs) = chunkHead r.1 r.2 ++ (sepCC ++ blobTail rs) := by
  induction rs generalizing r with
  | nil => simp [renderBlob, renderRecord, blobTail, List.append_assoc]
  | cons r2 rs' ih =>
    show renderRecord r.1 r.2 ++ ", ".data ++ renderBlob (r2 :: rs') = _
    rw [ih r2]
    simp [renderRecord, blobTail, List.append_assoc]

theorem head_app_ne_colon {x y : List Char} (hx : ∀ c ∈ x, c ≠ ':')
    (hy : y[0]? ≠ some ':') : (x ++ y)[0]? ≠ some ':' := by
  cases x with
  | nil => simpa using hy
  | cons c cs =>
    simp only [List.cons_append, List.getElem?_cons_zero, ne_eq, Option.some.injEq]
    exact hx c (by simp)

theorem noSCb_chunkHead {st nm : String} (hs : okStr st = true) (hn : okStr nm = true) :
    noSCb (chunkHead st nm) = true := by
  rw [chunkHead, List.append_assoc, List.append_assoc, List.append_assoc]
  have hclose : noSCb chunkClose = true := by decide
  have hcl0 : chunkClose[0]? ≠ some ':' := by decide
  have hnmclose : noSCb (nm.data ++ chunkClose) = true :=
    noSCb_append (noSCb_of_no_colon (okStr_no_colon hn)) hclose hcl0
  have hmid : noSCb (chunkMid ++ (nm.data ++ chunkClose)) = true := by
    apply noSCb_append (by decide) hnmclose
    exact head_app_ne_colon (okStr_no_colon hn) hcl0
  have hmid0 : (chunkMid ++ (nm.data ++ chunkClose))[0]? ≠ some ':' := by
    rw [getElem?_append_left' _ (by decide)]
    decide
  have hst : noSCb (st.data ++ (chunkMid ++ (nm.data ++ chunkClose))) = true :=
    noSCb_append (noSCb_of_no_colon (okStr_no_colon hs)) hmid hmid0
  apply noSCb_append (by decide) hst
  exact head_app_ne_colon (okStr_no_colon hs) hmid0

theorem noSCb_midChunk {st nm : String} (hs : okStr st = true) (hn : okStr nm = true) :
    noSCb (midChunk st nm) = true := by
  rw [midChunk]
  apply noSCb_append (by decide) (noSCb_chunkHead hs hn)
  rw [chunkHead, List.append_assoc, List.append_assoc, List.append_assoc,
    getElem?_append_left' _ (by decide)]
  decide

theorem split_blobTail (rs : List (String × String))
    (hok : ∀ q ∈ rs, okStr q.1 = true ∧ okStr q.2 = true) :
    splitOnSub sepCC (blobTail rs) = rs.map (fun q => midChunk q.1 q.2) ++ [tailPiece] := by
  induction rs with
  | nil =>
    show splitOnSub sepCC tailPiece = [tailPiece]
    exact splitOnSub_single (by decide)
  | cons q rs' ih =>
    have hbt : blobTail (q :: rs') = midChunk q.1 q.2 ++ (sepCC ++ blobTail rs') := by
      simp [blobTail, midChunk, List.append_assoc]
    rw [hbt, splitOnSub_step (noSCb_midChunk (hok q (by simp)).1 (hok q (by simp)).2)]
    rw [ih (fun q' hq' => hok q' (by simp [hq']))]
    rfl

theorem split_renderBlob (r : String × String) (rs : List (String × String))
    (hok : ∀ q ∈ r :: rs, okStr q.1 = true ∧ okStr q.2 = true) :
    splitOnSub sepCC (renderBlob (r :: rs)) =
      chunkHead r.1 r.2 :: (rs.map (fun q => midChunk q.1 q.2) ++ [tailPiece]) := by
  rw [renderBlob_decomp,
    splitOnSub_step (noSCb_chunkHead (hok r (by simp)).1 (hok r (by simp)).2)]
  rw [split_blobTail rs (fun q hq => hok q (by simp [hq]))]

/-! Position facts about the chunk templates: where the colons are, and
the values of a few fixed positions.  These drive the analysis of where
`state:` and `name:X` can occur inside a chunk. -/

theorem colon_of_okStr {s : String} (h : okStr s = true) {q : Nat}
    (hc : s.data[q]? = some ':') : False :=
  okStr_no_colon h ':' (mem_of_getElem?' hc) rfl

theorem chunkHead_colon {st nm : String} (hs : okStr st = true) (hn : okStr nm = true) {p : Nat}
    (h : (chunkHead st nm)[p]? = some ':') :
    p = 11 ∨ p = 21 ∨ p = 32 + st.data.length ∨ p = 40 + st.data.length := by
  have hpre : chunkHeadPre.length = 22 := by decide
  have hmid : chunkMid.length = 19 := by decide
  rw [chunkHead, List.append_assoc, List.append_assoc, List.append_assoc] at h
  by_cases h1 : p < 22
  · rw [getElem?_append_left' _ (by omega)] at h
    have hfact : ∀ q < 22, chunkHeadPre[q]? = some ':' → q = 11 ∨ q = 21 := by decide
    rcases hfact p h1 h with h' | h'
    · exact Or.inl h'
    · exact Or.inr (Or.inl h')
  · rw [show p = chunkHeadPre.length + (p - 22) by omega, getElem?_append_right'] at h
    by_cases h2 : p - 22 < st.data.length
    · rw [getElem?_append_left' _ h2] at h
      exact (colon_of_okStr hs h).elim
    · rw [show p - 22 = st.data.length + (p - 22 - st.data.length) by omega,
        getElem?_append_right'] at h
      by_cases h3 : p - 22 - st.data.length < 19
      · rw [getElem?_append_left' _ (by omega)] at h
        have hfact : ∀ q < 19, chunkMid[q]? = some ':' → q = 10 ∨ q = 18 := by decide
        rcases hfact _ h3 h with h' | h'
        · exact Or.inr (Or.inr (Or.inl (by omega)))
        · exact Or.inr (Or.inr (Or.inr (by omega)))
      · rw [show p - 22 - st.data.length = chunkMid.length + (p - 22 - st.data.length - 19)
            by omega, getElem?_append_right'] at h
        by_cases h4 : p - 22 - st.data.length - 19 < nm.data.length
        · rw [getElem?_append_left' _ h4] at h
          exact (colon_of_okStr hn h).elim
        · rw [show p - 22 - st.data.length - 19
              = nm.data.length + (p - 22 - st.data.length - 19 - nm.data.length) by omega,
            getElem?_append_right'] at h
          have hfact : ∀ q < 2, chunkClose[q]? ≠ some ':' := by decide
          by_cases h5 : p - 22 - st.data.length - 19 - nm.data.length < 2
          · exact (hfact _ h5 h).elim
          · have hc2 : chunkClose.length = 2 := by decide
            rw [List.getElem?_eq_none (by omega)] at h
            cases h

theorem midChunk_shift (st nm : String) (q : Nat) :
    (midChunk st nm)[13 + q]? = (chunkHead st nm)[q]? := by
  have hl : (tailPiece ++ ", ".data).length = 13 := by decide
  rw [midChunk, show (13 : Nat) + q = (tailPiece ++ ", ".data).length + q from by rw [hl],
    getElem?_append_right']

theorem midChunk_colon {st nm : String} (hs : okStr st = true) (hn : okStr nm = true) {p : Nat}
    (h : (midChunk st nm)[p]? = some ':') :
    p = 9 ∨ p = 24 ∨ p = 34 ∨ p = 45 + st.data.length ∨ p = 53 + st.data.length := by
  by_cases h1 : p < 13
  · have hl : (tailPiece ++ ", ".data).length = 13 := by decide
    rw [midChunk, getElem?_append_left' _ (by omega)] at h
    have hfact : ∀ q < 13, (tailPiece ++ ", ".data)[q]? = some ':' → q = 9 := by decide
    exact Or.inl (hfact p h1 h)
  · rw [show p = 13 + (p - 13) by omega, midChunk_shift] at h
    rcases chunkHead_colon hs hn h with h' | h' | h' | h'
    · exact Or.inr (Or.inl (by omega))
    · exact Or.inr (Or.inr (Or.inl (by omega)))
    · exact Or.inr (Or.inr (Or.inr (Or.inl (by omega))))
    · exact Or.inr (Or.inr (Or.inr (Or.inr (by omega))))

theorem chunkHead_pre_at {st nm : String} {q : Nat} (hq : q < 22) :
    (chunkHead st nm)[q]? = chunkHeadPre[q]? := by
  have hpre : chunkHeadPre.length = 22 := by decide
  rw [chunkHead, List.append_assoc, List.append_assoc, List.append_assoc,
    getElem?_append_left' _ (by omega)]

theorem chunkHead_mid_at {st nm : String} {q : Nat} (hq : q < 19) :
    (chunkHead st nm)[22 + st.data.length + q]? = chunkMid[q]? := by
  have hpre : chunkHeadPre.length = 22 := by decide
  have hmid : chunkMid.length = 19 := by decide
  rw [show chunkHead st nm
      = (chunkHeadPre ++ st.data) ++ (chunkMid ++ (nm.data ++ chunkClose)) by
    simp [chunkHead, List.append_assoc]]
  rw [show 22 + st.data.length + q = (chunkHeadPre ++ st.data).length + q from by
    rw [List.length_append, hpre]]
  rw [getElem?_append_right', getElem?_append_left' _ (by omega)]

theorem dropWhile_eq_self' {p : Char → Bool} {l : List Char} (h : ∀ c ∈ l, p c = false) :
    l.dropWhile p = l := by
  cases l with
  | nil => rfl
  | cons c cs => simp [List.dropWhile_cons, h c (by simp)]

theorem pyStrip_eq_self {l : List Char} (h : ∀ c ∈ l, isPyWs c = false) : pyStrip l = l := by
  rw [pyStrip, dropWhile_eq_self' h,
    dropWhile_eq_self' (fun c hc => h c (List.mem_reverse.mp hc)), List.reverse_reverse]

theorem statusFromChunks_cons (X chunk : List Char) (rest : List (List Char)) :
    statusFromChunks X (chunk :: rest)
      = if containsSub chunk ("name:".data ++ X) = true then
          match stateFromChunk chunk with
          | some s => s
          | none => statusFromChunks X rest
        else statusFromChunks X rest := by
  rfl

theorem statusFromChunks_skip {X : List Char} {cs rest : List (List Char)}
    (h : ∀ c ∈ cs, containsSub c ("name:".data ++ X) = false) :
    statusFromChunks X (cs ++ rest) = statusFromChunks X rest := by
  induction cs with
  | nil => rfl
  | cons c cs' ih =>
    rw [List.cons_append, statusFromChunks_cons, if_neg (by rw [h c (by simp)]; simp)]
    exact ih (fun c' hc' => h c' (by simp [hc']))

theorem statusFromChunks_fire {X chunk : List Char} {rest : List (List Char)} {s : List Char}
    (hc : containsSub chunk ("name:".data ++ X) = true) (hs : stateFromChunk chunk = some s) :
    statusFromChunks X (chunk :: rest) = s := by
  rw [statusFromChunks_cons, if_pos hc, hs]

theorem statusFromChunks_all_miss {X : List Char} {cs : List (List Char)}
    (h : ∀ c ∈ cs, containsSub c ("name:".data ++ X) = false) :
    statusFromChunks X cs = "NOT_FOUND".data := by
  induction cs with
  | nil => rfl
  | cons c cs' ih =>
    rw [statusFromChunks_cons, if_neg (by rw [h c (by simp)]; simp)]
    exact ih (fun c' hc' => h c' (by simp [hc']))

theorem contains_of_occurs {l sub : List Char} (j : Nat) (h : occursAtB sub l j = true) :
    containsSub l sub = true := by
  rw [containsSub]
  cases hf : listFind sub l with
  | some i => rfl
  | none => rw [listFind_none_occurs hf j] at h; cases h

theorem not_contains {l sub : List Char} (h : ∀ j, occursAtB sub l j = false) :
    containsSub l sub = false := by
  rw [containsSub, listFind_eq_none_of h]
  rfl

/-- Generic state-field extraction: on a chunk of the form
`pre ++ state: ++ S ++ rest` where the first `state:` occurrence is the
displayed one, `S` has no comma and no whitespace, and `rest` is empty
(state at end of chunk, no trailing comma) or starts with a comma, the
parser body extracts exactly `S`. -/
theorem stateFromChunk_eq {pre S rest : List Char}
    (hfind : listFind ("state:".data) (pre ++ ("state:".data ++ (S ++ rest))) = some pre.length)
    (hS1 : ∀ c ∈ S, c ≠ ',') (hS2 : ∀ c ∈ S, isPyWs c = false)
    (hrest : rest = [] ∨ ∃ t, rest = ',' :: t) :
    stateFromChunk (pre ++ ("state:".data ++ (S ++ rest))) = some S := by
  have hassoc : pre ++ ("state:".data ++ (S ++ rest))
      = (pre ++ "state:".data) ++ (S ++ rest) := by simp [List.append_assoc]
  have hlen6 : pre.length + 6 = (pre ++ "state:".data).length := by
    rw [List.length_append, show ("state:".data).length = 6 from by decide]
  have hdrop : (pre ++ ("state:".data ++ (S ++ rest))).drop (pre.length + 6) = S ++ rest := by
    rw [hassoc, hlen6, List.drop_left]
  have hdrop0 : (pre ++ ("state:".data ++ (S ++ rest))).drop pre.length
      = "state:".data ++ (S ++ rest) := List.drop_left _ _
  have hlentot : (pre ++ ("state:".data ++ (S ++ rest))).length
      = pre.length + 6 + S.length + rest.length := by
    simp [List.length_append, show ("state:".data).length = 6 from by decide]
    omega
  rcases hrest with h0 | ⟨t, ht⟩
  · subst h0
    have hfc : listFind [','] ("state:".data ++ (S ++ [])) = none := by
      apply listFind_eq_none_of
      intro j
      by_contra hcon
      rw [Bool.not_eq_false] at hcon
      have hp := occursAtB_probe hcon (show 0 < ([','] : List Char).length from by decide)
      rw [Nat.add_zero, show ([','] : List Char)[0]? = some ',' from rfl] at hp
      have hmem := mem_of_getElem?' hp
      rw [List.append_nil] at hmem
      rcases List.mem_append.mp hmem with hm | hm
      · have : ∀ c ∈ ("state:".data), c ≠ ',' := by decide
        exact this ',' hm rfl
      · exact hS1 ',' hm rfl
    have hff : listFindFrom [','] (pre ++ ("state:".data ++ (S ++ []))) pre.length = none := by
      rw [listFindFrom, hdrop0, hfc]
      rfl
    simp only [stateFromChunk, hfind, hff, hlentot, hdrop]
    rw [show pre.length + 6 + S.length + ([] : List Char).length - (pre.length + 6)
        = S.length from by simp, List.append_nil, List.take_length,
      pyStrip_eq_self hS2]
  · subst ht
    have hfc : listFind [','] ("state:".data ++ (S ++ ',' :: t)) = some (6 + S.length) := by
      apply listFind_eq_some_of
      · rw [occursAtB, show "state:".data ++ (S ++ ',' :: t)
            = ("state:".data ++ S) ++ ',' :: t from by simp [List.append_assoc],
          show 6 + S.length = ("state:".data ++ S).length from by
            rw [List.length_append, show ("state:".data).length = 6 from by decide],
          List.drop_left]
        rw [cons_isPrefixOf_cons]
        simp [nil_isPrefixOf]
      · intro j hj
        by_contra hcon
        rw [Bool.not_eq_false] at hcon
        have hp := occursAtB_probe hcon (show 0 < ([','] : List Char).length from by decide)
        rw [Nat.add_zero, show ([','] : List Char)[0]? = some ',' from rfl] at hp
        rw [show "state:".data ++ (S ++ ',' :: t)
            = ("state:".data ++ S) ++ ',' :: t from by simp [List.append_assoc]] at hp
        rw [getElem?_append_left' _ (by
          rw [List.length_append, show ("state:".data).length = 6 from by decide]; omega)] at hp
        have hmem := mem_of_getElem?' hp
        rcases List.mem_append.mp hmem with hm | hm
        · have : ∀ c ∈ ("state:".data), c ≠ ',' := by decide
          exact this ',' hm rfl
        · exact hS1 ',' hm rfl
    have hff : listFindFrom [','] (pre ++ ("state:".data ++ (S ++ ',' :: t))) pre.length
        = some (6 + S.length + pre.length) := by
      rw [listFindFrom, hdrop0, hfc]
      rfl
    simp only [stateFromChunk, hfind, hff, hdrop]
    rw [show 6 + S.length + pre.length - (pre.length + 6) = S.length from by omega,
      List.take_left, pyStrip_eq_self hS2]

theorem chunkHead_split_state (st nm : String) :
    chunkHead st nm
      = "autoconnect:NO, ".data
        ++ ("state:".data ++ (st.data ++ (chunkMid ++ (nm.data ++ chunkClose)))) := by
  rw [chunkHead, show chunkHeadPre = "autoconnect:NO, ".data ++ "state:".data from by decide]
  simp [List.append_assoc]

theorem listFind_state_chunkHead {st nm : String} (hs : okStr st = true) (hn : okStr nm = true) :
    listFind ("state:".data) (chunkHead st nm) = some 16 := by
  apply listFind_eq_some_of
  · rw [occursAtB, chunkHead_split_state,
      show (16 : Nat) = ("autoconnect:NO, ".data).length from by decide, List.drop_left]
    exact isPrefixOf_self_append _ _
  · intro j hj
    by_contra hcon
    rw [Bool.not_eq_false] at hcon
    have h5 : (chunkHead st nm)[j + 5]? = some ':' := by
      have := occursAtB_probe hcon (show 5 < ("state:".data).length from by decide)
      rwa [show ("state:".data)[5]? = some ':' from by decide] at this
    have h0 : (chunkHead st nm)[j + 0]? = some 's' := by
      have := occursAtB_probe hcon (show 0 < ("state:".data).length from by decide)
      rwa [show ("state:".data)[0]? = some 's' from by decide] at this
    rw [Nat.add_zero] at h0
    rcases chunkHead_colon hs hn h5 with h' | h' | h' | h'
    · have hj6 : j = 6 := by omega
      subst hj6
      rw [chunkHead_pre_at (by omega)] at h0
      exact absurd h0 (by decide)
    · omega
    · omega
    · omega

theorem midChunk_split_state (st nm : String) :
    midChunk st nm
      = (tailPiece ++ ", ".data ++ "autoconnect:NO, ".data)
        ++ ("state:".data ++ (st.data ++ (chunkMid ++ (nm.data ++ chunkClose)))) := by
  rw [midChunk, chunkHead_split_state]
  simp [List.append_assoc]

theorem listFind_state_midChunk {st nm : String} (hs : okStr st = true) (hn : okStr nm = true) :
    listFind ("state:".data) (midChunk st nm) = some 29 := by
  apply listFind_eq_some_of
  · rw [occursAtB, midChunk_split_state,
      show (29 : Nat) = (tailPiece ++ ", ".data ++ "autoconnect:NO, ".data).length from by decide,
      List.drop_left]
    exact isPrefixOf_self_append _ _
  · intro j hj
    by_contra hcon
    rw [Bool.not_eq_false] at hcon
    have h5 : (midChunk st nm)[j + 5]? = some ':' := by
      have := occursAtB_probe hcon (show 5 < ("state:".data).length from by decide)
      rwa [show ("state:".data)[5]? = some ':' from by decide] at this
    have h0 : (midChunk st nm)[j + 0]? = some 's' := by
      have := occursAtB_probe hcon (show 0 < ("state:".data).length from by decide)
      rwa [show ("state:".data)[0]? = some 's' from by decide] at this
    rw [Nat.add_zero] at h0
    rcases midChunk_colon hs hn h5 with h' | h' | h' | h' | h'
    · have hj4 : j = 4 := by omega
      subst hj4
      have h4v : (midChunk st nm)[4]? = some 't' := by
        have hl : (tailPiece ++ ", ".data).length = 13 := by decide
        rw [midChunk, getElem?_append_left' _ (by omega)]
        decide
      rw [h4v] at h0
      exact absurd h0 (by decide)
    · have hj19 : j = 19 := by omega
      subst hj19
      rw [show (19 : Nat) = 13 + 6 from rfl, midChunk_shift, chunkHead_pre_at (by omega)] at h0
      exact absurd h0 (by decide)
    · omega
    · omega
    · omega

/-- Parser body on the first chunk of a rendered blob: recovers the
state of the first record. -/
theorem stateFromChunk_chunkHead {st nm : String} (hs : okStr st = true) (hn : okStr nm = true) :
    stateFromChunk (chunkHead st nm) = some st.data := by
  have h := listFind_state_chunkHead hs hn
  rw [chunkHead_split_state] at h ⊢
  rw [show (16 : Nat) = ("autoconnect:NO, ".data).length from by decide] at h
  rw [stateFromChunk_eq
    (by rw [show st.data ++ (chunkMid ++ (nm.data ++ chunkClose))
          = st.data ++ (chunkMid ++ (nm.data ++ chunkClose)) from rfl]; exact h)
    (okStr_no_comma hs) (okStr_no_ws hs)
    (Or.inr ⟨", bytesOut:0, name:".data.tail ++ (nm.data ++ chunkClose), by
      rw [show chunkMid = ',' :: (", bytesOut:0, name:".data.tail) from by decide]
      rfl⟩)]

/-- Parser body on a non-first chunk of a rendered blob. -/
theorem stateFromChunk_midChunk {st nm : String} (hs : okStr st = true) (hn : okStr nm = true) :
    stateFromChunk (midChunk st nm) = some st.data := by
  have h := listFind_state_midChunk hs hn
  rw [midChunk_split_state] at h ⊢
  rw [show (29 : Nat) = (tailPiece ++ ", ".data ++ "autoconnect:NO, ".data).length
    from by decide] at h
  rw [stateFromChunk_eq h (okStr_no_comma hs) (okStr_no_ws hs)
    (Or.inr ⟨", bytesOut:0, name:".data.tail ++ (nm.data ++ chunkClose), by
      rw [show chunkMid = ',' :: (", bytesOut:0, name:".data.tail) from by decide]
      rfl⟩)]

theorem chunkHead_split_name (st nm : String) :
    chunkHead st nm
      = (chunkHeadPre ++ st.data ++ ", bytesOut:0, ".data)
        ++ ("name:".data ++ (nm.data ++ chunkClose)) := by
  rw [chunkHead, show chunkMid = ", bytesOut:0, ".data ++ "name:".data from by decide]
  simp [List.append_assoc]

theorem chunkHead_nameKey_len (st : String) :
    (chunkHeadPre ++ st.data ++ ", bytesOut:0, ".data).length = 36 + st.data.length := by
  rw [List.length_append, List.length_append,
    show chunkHeadPre.length = 22 from by decide,
    show (", bytesOut:0, ".data).length = 14 from by decide]
  omega

/-- Occurrence characterisation for the substring `name:X` in a chunk
head: it occurs exactly when `X` is a prefix of the record's name.
This is the root of the parser's prefix-collision fragility. -/
theorem contains_name_chunkHead {st nm X : String} (hs : okStr st = true) (hn : okStr nm = true)
    (hX : okStr X = true) :
    containsSub (chunkHead st nm) ("name:".data ++ X.data) = X.data.isPrefixOf nm.data := by
  cases hp : X.data.isPrefixOf nm.data with
  | true =>
    apply contains_of_occurs ((chunkHeadPre ++ st.data ++ ", bytesOut:0, ".data).length)
    rw [occursAtB, chunkHead_split_name, List.drop_left, isPrefixOf_append_both,
      show chunkClose = ',' :: [' '] from by decide,
      isPrefixOf_append_stop (okStr_no_comma hX)]
    exact hp
  | false =>
    apply not_contains
    intro j
    by_contra hcon
    rw [Bool.not_eq_false, occursAtB] at hcon
    obtain ⟨hname, hXocc⟩ := isPrefixOf_split hcon
    have hnocc : occursAtB ("name:".data) (chunkHead st nm) j = true := hname
    have h4 : (chunkHead st nm)[j + 4]? = some ':' := by
      have := occursAtB_probe hnocc (show 4 < ("name:".data).length from by decide)
      rwa [show ("name:".data)[4]? = some ':' from by decide] at this
    have h0 : (chunkHead st nm)[j + 0]? = some 'n' := by
      have := occursAtB_probe hnocc (show 0 < ("name:".data).length from by decide)
      rwa [show ("name:".data)[0]? = some 'n' from by decide] at this
    rw [Nat.add_zero] at h0
    have h1 : (chunkHead st nm)[j + 1]? = some 'a' := by
      have := occursAtB_probe hnocc (show 1 < ("name:".data).length from by decide)
      rwa [show ("name:".data)[1]? = some 'a' from by decide] at this
    rcases chunkHead_colon hs hn h4 with h' | h' | h' | h'
    · have hj : j = 7 := by omega
      subst hj
      rw [show (7 : Nat) + 1 = 8 from rfl, chunkHead_pre_at (by omega)] at h1
      exact absurd h1 (by decide)
    · have hj : j = 17 := by omega
      subst hj
      rw [chunkHead_pre_at (by omega)] at h0
      exact absurd h0 (by decide)
    · have hj : j = 22 + st.data.length + 6 := by omega
      subst hj
      rw [chunkHead_mid_at (by omega)] at h0
      exact absurd h0 (by decide)
    · have hlenA := chunkHead_nameKey_len st
      have hj : j = (chunkHeadPre ++ st.data ++ ", bytesOut:0, ".data).length := by omega
      rw [List.drop_drop, hj] at hXocc
      rw [show (chunkHeadPre ++ st.data ++ ", bytesOut:0, ".data).length + ("name:".data).length
          = ((chunkHeadPre ++ st.data ++ ", bytesOut:0, ".data) ++ "name:".data).length
          from (List.length_append _ _).symm] at hXocc
      rw [show chunkHead st nm
          = ((chunkHeadPre ++ st.data ++ ", bytesOut:0, ".data) ++ "name:".data)
            ++ (nm.data ++ chunkClose) from by
        rw [chunkHead_split_name]; simp [List.append_assoc]] at hXocc
      rw [List.drop_left, show chunkClose = ',' :: [' '] from by decide,
        isPrefixOf_append_stop (okStr_no_comma hX)] at hXocc
      rw [hp] at hXocc
      cases hXocc

theorem midChunk_split_name (st nm : String) :
    midChunk st nm
      = (tailPiece ++ ", ".data ++ chunkHeadPre ++ st.data ++ ", bytesOut:0, ".data)
        ++ ("name:".data ++ (nm.data ++ chunkClose)) := by
  rw [midChunk, chunkHead_split_name]
  simp [List.append_assoc]

theorem midChunk_nameKey_len (st : String) :
    (tailPiece ++ ", ".data ++ chunkHeadPre ++ st.data ++ ", bytesOut:0, ".data).length
      = 49 + st.data.length := by
  simp only [List.length_append]
  rw [show tailPiece.length = 11 from by decide,
    show (", ".data).length = 2 from by decide,
    show chunkHeadPre.length = 22 from by decide,
    show (", bytesOut:0, ".data).length = 14 from by decide]
  omega

/-- Occurrence characterisation for `name:X` in a non-first chunk. -/
theorem contains_name_midChunk {st nm X : String} (hs : okStr st = true) (hn : okStr nm = true)
    (hX : okStr X = true) :
    containsSub (midChunk st nm) ("name:".data ++ X.data) = X.data.isPrefixOf nm.data := by
  cases hp : X.data.isPrefixOf nm.data with
  | true =>
    apply contains_of_occurs
      ((tailPiece ++ ", ".data ++ chunkHeadPre ++ st.data ++ ", bytesOut:0, ".data).length)
    rw [occursAtB, midChunk_split_name, List.drop_left, isPrefixOf_append_both,
      show chunkClose = ',' :: [' '] from by decide,
      isPrefixOf_append_stop (okStr_no_comma hX)]
    exact hp
  | false =>
    apply not_contains
    intro j
    by_contra hcon
    rw [Bool.not_eq_false, occursAtB] at hcon
    obtain ⟨hname, hXocc⟩ := isPrefixOf_split hcon
    have hnocc : occursAtB ("name:".data) (midChunk st nm) j = true := hname
    have h4 : (midChunk st nm)[j + 4]? = some ':' := by
      have := occursAtB_probe hnocc (show 4 < ("name:".data).length from by decide)
      rwa [show ("name:".data)[4]? = some ':' from by decide] at this
    have h0 : (midChunk st nm)[j + 0]? = some 'n' := by
      have := occursAtB_probe hnocc (show 0 < ("name:".data).length from by decide)
      rwa [show ("name:".data)[0]? = some 'n' from by decide] at this
    rw [Nat.add_zero] at h0
    have h1 : (midChunk st nm)[j + 1]? = some 'a' := by
      have := occursAtB_probe hnocc (show 1 < ("name:".data).length from by decide)
      rwa [show ("name:".data)[1]? = some 'a' from by decide] at this
    rcases midChunk_colon hs hn h4 with h' | h' | h' | h' | h'
    · have hj : j = 5 := by omega
      subst hj
      have h5v : (midChunk st nm)[5]? = some 'e' := by
        have hl : (tailPiece ++ ", ".data).length = 13 := by decide
        rw [midChunk, getElem?_append_left' _ (by omega)]
        decide
      rw [h5v] at h0
      exact absurd h0 (by decide)
    · have hj : j = 20 := by omega
      subst hj
      rw [show (20 : Nat) + 1 = 13 + 8 from rfl, midChunk_shift,
        chunkHead_pre_at (by omega)] at h1
      exact absurd h1 (by decide)
    · have hj : j = 30 := by omega
      subst hj
      rw [show (30 : Nat) = 13 + 17 from rfl, midChunk_shift,
        chunkHead_pre_at (by omega)] at h0
      exact absurd h0 (by decide)
    · have hj : j = 13 + (22 + st.data.length + 6) := by omega
      subst hj
      rw [midChunk_shift, chunkHead_mid_at (by omega)] at h0
      exact absurd h0 (by decide)
    · have hlenA := midChunk_nameKey_len st
      have hj : j
          = (tailPiece ++ ", ".data ++ chunkHeadPre ++ st.data ++ ", bytesOut:0, ".data).length := by
        omega
      rw [List.drop_drop, hj] at hXocc
      rw [show (tailPiece ++ ", ".data ++ chunkHeadPre ++ st.data
              ++ ", bytesOut:0, ".data).length + ("name:".data).length
          = ((tailPiece ++ ", ".data ++ chunkHeadPre ++ st.data ++ ", bytesOut:0, ".data)
              ++ "name:".data).length
          from (List.length_append _ _).symm] at hXocc
      rw [show midChunk st nm
          = ((tailPiece ++ ", ".data ++ chunkHeadPre ++ st.data ++ ", bytesOut:0, ".data)
              ++ "name:".data) ++ (nm.data ++ chunkClose) from by
        rw [midChunk_split_name]; simp [List.append_assoc]] at hXocc
      rw [List.drop_left, show chunkClose = ',' :: [' '] from by decide,
        isPrefixOf_append_stop (okStr_no_comma hX)] at hXocc
      rw [hp] at hXocc
      cases hXocc

/-- The final split chunk `, bytesIn:0` never matches any `name:X`. -/
theorem no_name_tailPiece (X : List Char) :
    containsSub tailPiece ("name:".data ++ X) = false := by
  apply not_contains
  intro j
  by_contra hcon
  rw [Bool.not_eq_false, occursAtB] at hcon
  obtain ⟨hname, _⟩ := isPrefixOf_split hcon
  have hnocc : occursAtB ("name:".data) tailPiece j = true := hname
  have h4 : tailPiece[j + 4]? = some ':' := by
    have := occursAtB_probe hnocc (show 4 < ("name:".data).length from by decide)
    rwa [show ("name:".data)[4]? = some ':' from by decide] at this
  have h0 : tailPiece[j + 0]? = some 'n' := by
    have := occursAtB_probe hnocc (show 0 < ("name:".data).length from by decide)
    rwa [show ("name:".data)[0]? = some 'n' from by decide] at this
  rw [Nat.add_zero] at h0
  have hlen : tailPiece.length = 11 := by decide
  by_cases hq : j + 4 < 11
  · have hfact : ∀ q < 11, tailPiece[q]? = some ':' → q = 9 := by decide
    have hj : j = 5 := by have := hfact _ hq h4; omega
    subst hj
    exact absurd h0 (by decide)
  · rw [List.getElem?_eq_none (by omega)] at h4
    cases h4

theorem okStr_getElem_ne_colon {s : String} (h : okStr s = true) (q : Nat) :
    s.data[q]? ≠ some ':' := fun hc => colon_of_okStr h hc

theorem noSCb_endBlob {nm st : String} (hn : okStr nm = true) (hs : okStr st = true) :
    noSCb (endBlob nm st) = true := by
  rw [endBlob]
  apply noSCb_append _ (noSCb_of_no_colon (okStr_no_colon hs)) (okStr_getElem_ne_colon hs 0)
  apply noSCb_append _ (by decide) (by decide)
  exact noSCb_append (by decide) (noSCb_of_no_colon (okStr_no_colon hn))
    (okStr_getElem_ne_colon hn 0)

theorem endBlob_colon {nm st : String} (hn : okStr nm = true) (hs : okStr st = true) {p : Nat}
    (h : (endBlob nm st)[p]? = some ':') :
    p = 11 ∨ p = 20 ∨ p = 28 + nm.data.length := by
  have ha : ("autoconnect:NO, name:".data).length = 21 := by decide
  have hb : (", state:".data).length = 8 := by decide
  rw [endBlob] at h
  by_cases h1 : p < 21
  · rw [List.append_assoc, List.append_assoc, getElem?_append_left' _ (by omega)] at h
    have hfact : ∀ q < 21, ("autoconnect:NO, name:".data)[q]? = some ':' → q = 11 ∨ q = 20 := by
      decide
    rcases hfact p h1 h with h' | h'
    · exact Or.inl h'
    · exact Or.inr (Or.inl h')
  · rw [List.append_assoc, List.append_assoc,
      show p = ("autoconnect:NO, name:".data).length + (p - 21) from by omega,
      getElem?_append_right'] at h
    by_cases h2 : p - 21 < nm.data.length
    · rw [getElem?_append_left' _ h2] at h
      exact (colon_of_okStr hn h).elim
    · rw [show p - 21 = nm.data.length + (p - 21 - nm.data.length) from by omega,
        getElem?_append_right'] at h
      by_cases h3 : p - 21 - nm.data.length < 8
      · rw [getElem?_append_left' _ (by omega)] at h
        have hfact : ∀ q < 8, (", state:".data)[q]? = some ':' → q = 7 := by decide
        have := hfact _ h3 h
        exact Or.inr (Or.inr (by omega))
      · rw [show p - 21 - nm.data.length
            = (", state:".data).length + (p - 21 - nm.data.length - 8) from by omega,
          getElem?_append_right'] at h
        exact (colon_of_okStr hs h).elim

theorem endBlob_pre_at {nm st : String} {q : Nat} (hq : q < 21) :
    (endBlob nm st)[q]? = ("autoconnect:NO, name:".data)[q]? := by
  have ha : ("autoconnect:NO, name:".data).length = 21 := by decide
  rw [endBlob, List.append_assoc, List.append_assoc, getElem?_append_left' _ (by omega)]

theorem endBlob_split_state (nm st : String) :
    endBlob nm st
      = ("autoconnect:NO, name:".data ++ nm.data ++ ", ".data)
        ++ ("state:".data ++ (st.data ++ ([] : List Char))) := by
  rw [endBlob, show ", state:".data = ", ".data ++ "state:".data from by decide]
  simp [List.append_assoc]

theorem endBlob_state_len (nm : String) :
    ("autoconnect:NO, name:".data ++ nm.data ++ ", ".data).length = 23 + nm.data.length := by
  simp only [List.length_append]
  rw [show ("autoconnect:NO, name:".data).length = 21 from by decide,
    show (", ".data).length = 2 from by decide]
  omega

theorem listFind_state_endBlob {nm st : String} (hn : okStr nm = true) (hs : okStr st = true) :
    listFind ("state:".data) (endBlob nm st)
      = some ("autoconnect:NO, name:".data ++ nm.data ++ ", ".data).length := by
  apply listFind_eq_some_of
  · rw [occursAtB, endBlob_split_state, List.drop_left]
    exact isPrefixOf_self_append _ _
  · intro j hj
    rw [endBlob_state_len] at hj
    by_contra hcon
    rw [Bool.not_eq_false] at hcon
    have h5 : (endBlob nm st)[j + 5]? = some ':' := by
      have := occursAtB_probe hcon (show 5 < ("state:".data).length from by decide)
      rwa [show ("state:".data)[5]? = some ':' from by decide] at this
    have h0 : (endBlob nm st)[j + 0]? = some 's' := by
      have := occursAtB_probe hcon (show 0 < ("state:".data).length from by decide)
      rwa [show ("state:".data)[0]? = some 's' from by decide] at this
    rw [Nat.add_zero] at h0
    rcases endBlob_colon hn hs h5 with h' | h' | h'
    · have hj6 : j = 6 := by omega
      subst hj6
      rw [endBlob_pre_at (by omega)] at h0
      exact absurd h0 (by decide)
    · have hj15 : j = 15 := by omega
      subst hj15
      rw [endBlob_pre_at (by omega)] at h0
      exact absurd h0 (by decide)
    · omega

theorem stateFromChunk_endBlob {nm st : String} (hn : okStr nm = true) (hs : okStr st = true) :
    stateFromChunk (endBlob nm st) = some st.data := by
  have h := listFind_state_endBlob hn hs
  rw [endBlob_split_state] at h ⊢
  rw [stateFromChunk_eq h (okStr_no_comma hs) (okStr_no_ws hs) (Or.inl rfl)]

theorem contains_name_endBlob (nm st : String) :
    containsSub (endBlob nm st) ("name:".data ++ nm.data) = true := by
  apply contains_of_occurs (("autoconnect:NO, ".data).length)
  rw [occursAtB,
    show endBlob nm st
      = "autoconnect:NO, ".data ++ ("name:".data ++ (nm.data ++ (", state:".data ++ st.data)))
      from by
        rw [endBlob, show "autoconnect:NO, name:".data
            = "autoconnect:NO, ".data ++ "name:".data from by decide]
        simp [List.append_assoc],
    List.drop_left, isPrefixOf_append_both]
  exact isPrefixOf_self_append _ _

theorem endBlob_ne_nil (nm st : String) : endBlob nm st ≠ [] := by
  rw [endBlob]
  intro h
  have h1 := (List.append_eq_nil.mp h).1
  have h2 := (List.append_eq_nil.mp h1).1
  have h3 := (List.append_eq_nil.mp h2).1
  exact absurd h3 (by decide)

theorem renderBlob_cons_ne_nil (r : String × String) (rs : List (String × String)) :
    renderBlob (r :: rs) ≠ [] := by
  rw [renderBlob_decomp, chunkHead]
  intro h
  have h1 := (List.append_eq_nil.mp h).1
  have h2 := (List.append_eq_nil.mp h1).1
  have h3 := (List.append_eq_nil.mp h2).1
  have h4 := (List.append_eq_nil.mp h3).1
  have h5 := (List.append_eq_nil.mp h4).1
  exact absurd h5 (by decide)

theorem get_vpn_status_of_ne_nil {X : String} {blob : List Char} (h : blob ≠ []) :
    get_vpn_status X ⟨blob⟩ = ⟨statusFromChunks X.data (splitOnSub sepCC blob)⟩ := by
  rw [get_vpn_status, if_neg (fun hc => h (congrArg String.data hc))]
  rfl

/-- The parser finds the state of the record named exactly `X`, as long
as no earlier record's name has `X` as a prefix. -/
theorem parser_found (X Y : String) (pre post : List (String × String))
    (hX : okStr X = true) (hY : okStr Y = true)
    (hpre : ∀ q ∈ pre, okStr q.1 = true ∧ okStr q.2 = true)
    (hpost : ∀ q ∈ post, okStr q.1 = true ∧ okStr q.2 = true)
    (hmiss : ∀ q ∈ pre, X.data.isPrefixOf q.2.data = false) :
    get_vpn_status X ⟨renderBlob (pre ++ (Y, X) :: post)⟩ = Y := by
  cases pre with
  | nil =>
    rw [List.nil_append, get_vpn_status_of_ne_nil (renderBlob_cons_ne_nil _ _),
      split_renderBlob (Y, X) post (by
        intro q hq
        rcases List.mem_cons.mp hq with h | h
        · subst h; exact ⟨hY, hX⟩
        · exact hpost q h)]
    rw [statusFromChunks_fire
      (by rw [contains_name_chunkHead hY hX hX]; exact isPrefixOf_refl' _)
      (stateFromChunk_chunkHead hY hX)]
  | cons p pre' =>
    rw [List.cons_append, get_vpn_status_of_ne_nil (renderBlob_cons_ne_nil _ _),
      split_renderBlob p (pre' ++ (Y, X) :: post) (by
        intro q hq
        rcases List.mem_cons.mp hq with h | h
        · rw [h]; exact hpre p (by simp)
        · rcases List.mem_append.mp h with h' | h'
          · exact hpre q (by simp [h'])
          · rcases List.mem_cons.mp h' with h'' | h''
            · subst h''; exact ⟨hY, hX⟩
            · exact hpost q h'')]
    have hsplit : chunkHead p.1 p.2
          :: ((pre' ++ (Y, X) :: post).map (fun q => midChunk q.1 q.2) ++ [tailPiece])
        = (chunkHead p.1 p.2 :: pre'.map (fun q => midChunk q.1 q.2))
          ++ (midChunk Y X
              :: (post.map (fun q => midChunk q.1 q.2) ++ [tailPiece])) := by
      simp [List.map_append, List.append_assoc]
    rw [hsplit, statusFromChunks_skip (by
      intro c hc
      rcases List.mem_cons.mp hc with h | h
      · subst h
        rw [contains_name_chunkHead (hpre p (by simp)).1 (hpre p (by simp)).2 hX]
        exact hmiss p (by simp)
      · obtain ⟨q, hq, rfl⟩ := List.mem_map.mp h
        rw [contains_name_midChunk (hpre q (by simp [hq])).1 (hpre q (by simp [hq])).2 hX]
        exact hmiss q (by simp [hq]))]
    rw [statusFromChunks_fire
      (by rw [contains_name_midChunk hY hX hX]; exact isPrefixOf_refl' _)
      (stateFromChunk_midChunk hY hX)]

/-- The parser answers `NOT_FOUND` when no record's name has `X` as a
prefix. -/
theorem parser_notfound (X : String) (r : String × String) (rs : List (String × String))
    (hX : okStr X = true)
    (hok : ∀ q ∈ r :: rs, okStr q.1 = true ∧ okStr q.2 = true)
    (hmiss : ∀ q ∈ r :: rs, X.data.isPrefixOf q.2.data = false) :
    get_vpn_status X ⟨renderBlob (r :: rs)⟩ = "NOT_FOUND" := by
  rw [get_vpn_status_of_ne_nil (renderBlob_cons_ne_nil _ _), split_renderBlob r rs hok]
  rw [statusFromChunks_all_miss (by
    intro c hc
    rcases List.mem_cons.mp hc with h | h
    · subst h
      rw [contains_name_chunkHead (hok r (by simp)).1 (hok r (by simp)).2 hX]
      exact hmiss r (by simp)
    · rcases List.mem_append.mp h with h' | h'
      · obtain ⟨q, hq, rfl⟩ := List.mem_map.mp h'
        rw [contains_name_midChunk (hok q (by simp [hq])).1 (hok q (by simp [hq])).2 hX]
        exact hmiss q (by simp [hq])
      · rw [List.mem_singleton.mp h']
        exact no_name_tailPiece X.data)]

/-- The parser extracts a state that sits at the very end of its chunk
with no trailing comma. -/
theorem parser_end_no_comma (X Y : String) (hX : okStr X = true) (hY : okStr Y = true) :
    get_vpn_status X ⟨endBlob X Y⟩ = Y := by
  rw [get_vpn_status_of_ne_nil (endBlob_ne_nil X Y),
    splitOnSub_single (noSCb_endBlob hX hY)]
  rw [statusFromChunks_fire (contains_name_endBlob X Y) (stateFromChunk_endBlob hX hY)]

example : get_vpn_status "home-vpn2"
    "autoconnect:NO, state:EXITING, bytesOut:0, name:home-vpn2, class:configuration, bytesIn:0"
    = "EXITING" := by decide

example : get_vpn_status "home-vpn2" "" = "UNKNOWN" := by decide

example : get_vpn_status "absent"
    "autoconnect:NO, state:EXITING, bytesOut:0, name:home-vpn2, class:configuration, bytesIn:0"
    = "NOT_FOUND" := by decide

example : get_vpn_status "home"
    "autoconnect:NO, state:EXITING, bytesOut:0, name:home-vpn2, class:configuration, bytesIn:0"
    = "EXITING" := by decide

/-! Claim theorems. -/

set_option maxRecDepth 20000 in
/-- C1, counterexample to the claim as stated: the blob below is a
well-formed two-record status blob whose second record has name exactly
`home` and state `CONNECTED`, yet the parser queried for `home` returns
the state of the first record (`home-vpn2`, whose name has `home` as a
prefix) instead of `CONNECTED`.  So it is not true that for every
well-formed blob containing a record `name:X, state:Y` the parser
returns `Y`. -/
theorem c1_status_parser_counterexample :
    get_vpn_status "home" ⟨renderBlob [("EXITING", "home-vpn2"), ("CONNECTED", "home")]⟩
      = "EXITING"
    ∧ get_vpn_status "home" ⟨renderBlob [("EXITING", "home-vpn2"), ("CONNECTED", "home")]⟩
      ≠ "CONNECTED" := by
  constructor
  · decide
  · decide

/-- C1 (amended): over well-formed status blobs (rendered records whose
names and states contain no colon, comma or whitespace), the parser
returns exactly the state `Y` of the record named `X` — including when
the blob has several records, and including when `Y` sits at the end of
its record with no trailing comma — PROVIDED that no record placed
earlier in the blob has a name of which `X` is a prefix (the proviso
the counterexample forces); with no such proviso needed for the other
parts: if no record's name has `X` as a prefix the parser returns
`NOT_FOUND`, and on the empty blob it returns `UNKNOWN`. -/
theorem c1_status_parser_amended :
    (∀ (X Y : String) (pre post : List (String × String)),
        okStr X = true → okStr Y = true →
        (∀ q ∈ pre, okStr q.1 = true ∧ okStr q.2 = true) →
        (∀ q ∈ post, okStr q.1 = true ∧ okStr q.2 = true) →
        (∀ q ∈ pre, X.data.isPrefixOf q.2.data = false) →
        get_vpn_status X ⟨renderBlob (pre ++ (Y, X) :: post)⟩ = Y)
    ∧ (∀ X Y : String, okStr X = true → okStr Y = true →
        get_vpn_status X ⟨endBlob X Y⟩ = Y)
    ∧ (∀ (X : String) (r : String × String) (rs : List (String × String)),
        okStr X = true →
        (∀ q ∈ r :: rs, okStr q.1 = true ∧ okStr q.2 = true) →
        (∀ q ∈ r :: rs, X.data.isPrefixOf q.2.data = false) →
        get_vpn_status X ⟨renderBlob (r :: rs)⟩ = "NOT_FOUND")
    ∧ (∀ X : String, get_vpn_status X "" = "UNKNOWN") :=
  ⟨parser_found, parser_end_no_comma, parser_notfound, fun _ => rfl⟩

set_option maxRecDepth 20000 in
/-- Witness for C1: the amended theorem applied at concrete inputs —
a three-record blob queried for the middle record's name, the
no-trailing-comma blob, an absent name, and the empty blob. -/
theorem c1_status_parser_witness :
    get_vpn_status "home-vpn2"
        ⟨renderBlob [("EXITING", "work-vpn"), ("CONNECTED", "home-vpn2"), ("SLEEPING", "backup")]⟩
      = "CONNECTED"
    ∧ get_vpn_status "home-vpn2" ⟨endBlob "home-vpn2" "SLEEPING"⟩ = "SLEEPING"
    ∧ get_vpn_status "absent"
        ⟨renderBlob [("EXITING", "work-vpn"), ("CONNECTED", "home-vpn2")]⟩ = "NOT_FOUND"
    ∧ get_vpn_status "home-vpn2" "" = "UNKNOWN" := by
  refine ⟨?_, ?_, ?_, ?_⟩
  · exact c1_status_parser_amended.1 "home-vpn2" "CONNECTED"
      [("EXITING", "work-vpn")] [("SLEEPING", "backup")]
      (by decide) (by decide) (by decide) (by decide) (by decide)
  · exact c1_status_parser_amended.2.1 "home-vpn2" "SLEEPING" (by decide) (by decide)
  · exact c1_status_parser_amended.2.2.1 "absent" ("EXITING", "work-vpn")
      [("CONNECTED", "home-vpn2")] (by decide) (by decide) (by decide)
  · exact c1_status_parser_amended.2.2.2 "home-vpn2"

theorem connectWaitLoop_true_iff (status : Nat → String) :
    ∀ (fuel i : Nat),
      connectWaitLoop status i fuel = true
        ↔ ∃ k < fuel, status (i + k) = "CONNECTED"
            ∧ ∀ j < k, statusBad (status (i + j)) = false := by
  intro fuel
  induction fuel with
  | zero =>
    intro i
    simp [connectWaitLoop]
  | succ f ih =>
    intro i
    by_cases hc : status i = "CONNECTED"
    · have hval : connectWaitLoop status i (f + 1) = true := by
        simp [connectWaitLoop, hc]
      rw [hval]
      constructor
      · intro _
        exact ⟨0, by omega, by rwa [Nat.add_zero], by omega⟩
      · intro _
        rfl
    · by_cases hb : statusBad (status i) = true
      · have hval : connectWaitLoop status i (f + 1) = false := by
          simp [connectWaitLoop, hc, hb]
        rw [hval]
        constructor
        · intro h
          cases h
        · rintro ⟨k, hk, hconn, hclean⟩
          cases k with
          | zero =>
            rw [Nat.add_zero] at hconn
            exact absurd hconn hc
          | succ k' =>
            have h0 := hclean 0 (by omega)
            rw [Nat.add_zero] at h0
            rw [h0] at hb
            cases hb
      · have hval : connectWaitLoop status i (f + 1) = connectWaitLoop status (i + 1) f := by
          simp [connectWaitLoop, hc, hb]
        rw [hval, ih (i + 1)]
        constructor
        · rintro ⟨k, hk, hconn, hclean⟩
          refine ⟨k + 1, by omega, by rwa [show i + (k + 1) = i + 1 + k by omega], ?_⟩
          intro j hj
          cases j with
          | zero =>
            rw [Nat.add_zero]
            exact (Bool.not_eq_true _).mp hb
          | succ j' =>
            have := hclean j' (by omega)
            rwa [show i + (j' + 1) = i + 1 + j' by omega]
        · rintro ⟨k, hk, hconn, hclean⟩
          cases k with
          | zero =>
            rw [Nat.add_zero] at hconn
            exact absurd hconn hc
          | succ k' =>
            refine ⟨k', by omega, by rwa [show i + 1 + k' = i + (k' + 1) by omega], ?_⟩
            intro j hj
            have := hclean (j + 1) (by omega)
            rwa [show i + (j + 1) = i + 1 + j by omega] at this

/-- C2: the connect wait loop succeeds iff some poll among the first 30
returns exactly `CONNECTED` with no earlier poll containing `EXITING`
or `DISCONNECTED`; it fails when such a bad status comes first, and
fails when neither terminal condition occurs within the 30-poll
budget. -/
theorem c2_connect_poll (status : Nat → String) :
    (connect_vpn status = true
      ↔ ∃ k < 30, status k = "CONNECTED" ∧ ∀ j < k, statusBad (status j) = false)
    ∧ (∀ k < 30, statusBad (status k) = true →
        (∀ j < k, status j ≠ "CONNECTED" ∧ statusBad (status j) = false) →
        connect_vpn status = false)
    ∧ ((∀ k < 30, status k ≠ "CONNECTED" ∧ statusBad (status k) = false) →
        connect_vpn status = false) := by
  have hiff : connect_vpn status = true
      ↔ ∃ k < 30, status k = "CONNECTED" ∧ ∀ j < k, statusBad (status j) = false := by
    rw [connect_vpn, connectWaitLoop_true_iff status 30 0]
    constructor
    · rintro ⟨k, hk, h1, h2⟩
      exact ⟨k, hk, by simpa using h1, fun j hj => by simpa using h2 j hj⟩
    · rintro ⟨k, hk, h1, h2⟩
      exact ⟨k, hk, by simpa using h1, fun j hj => by simpa using h2 j hj⟩
  refine ⟨hiff, ?_, ?_⟩
  · intro k hk hbad hclean
    cases hval : connect_vpn status with
    | false => rfl
    | true =>
      obtain ⟨k', hk', hconn, hpure⟩ := hiff.mp hval
      rcases Nat.lt_trichotomy k' k with h | h | h
      · exact absurd hconn (hclean k' h).1
      · subst h
        rw [hconn] at hbad
        exact absurd hbad (by decide)
      · rw [hpure k h] at hbad
        cases hbad
  · intro hall
    cases hval : connect_vpn status with
    | false => rfl
    | true =>
      obtain ⟨k', hk', hconn, _⟩ := hiff.mp hval
      exact absurd hconn (hall k' hk').1

/-- Witness for C2: a run that reaches `CONNECTED` at the third poll
succeeds; a run stuck on a non-terminal status for all 30 polls
fails. -/
theorem c2_connect_poll_witness :
    connect_vpn (fun k => if k = 2 then "CONNECTED" else "AUTHORIZING") = true
    ∧ connect_vpn (fun _ => "SLEEPING") = false := by
  constructor
  · exact (c2_connect_poll _).1.mpr ⟨2, by omega, by decide, by decide⟩
  · exact (c2_connect_poll _).2.2 (fun k _ => by decide)

theorem disconnectWaitLoop_true_iff (status : Nat → String) :
    ∀ (fuel i : Nat),
      disconnectWaitLoop status i fuel = true
        ↔ ∃ k < fuel, statusBad (status (i + k)) = true := by
  intro fuel
  induction fuel with
  | zero =>
    intro i
    simp [disconnectWaitLoop]
  | succ f ih =>
    intro i
    by_cases hb : statusBad (status i) = true
    · have hval : disconnectWaitLoop status i (f + 1) = true := by
        simp [disconnectWaitLoop, hb]
      rw [hval]
      constructor
      · intro _
        exact ⟨0, by omega, by rwa [Nat.add_zero]⟩
      · intro _
        rfl
    · have hval : disconnectWaitLoop status i (f + 1) = disconnectWaitLoop status (i + 1) f := by
        simp [disconnectWaitLoop, hb]
      rw [hval, ih (i + 1)]
      constructor
      · rintro ⟨k, hk, h⟩
        exact ⟨k + 1, by omega, by rwa [show i + (k + 1) = i + 1 + k by omega]⟩
      · rintro ⟨k, hk, h⟩
        cases k with
        | zero =>
          rw [Nat.add_zero] at h
          exact absurd h hb
        | succ k' =>
          exact ⟨k', by omega, by rwa [show i + 1 + k' = i + (k' + 1) by omega]⟩

/-- C3: the disconnect wait loop succeeds iff a status containing
`EXITING` or `DISCONNECTED` is observed within its 10 polls; any such
poll suffices for success, and with none it fails. -/
theorem c3_disconnect_poll (status : Nat → String) :
    (disconnect_vpn status = true ↔ ∃ k < 10, statusBad (status k) = true)
    ∧ (∀ k < 10, statusBad (status k) = true → disconnect_vpn status = true)
    ∧ ((∀ k < 10, statusBad (status k) = false) → disconnect_vpn status = false) := by
  have hiff : disconnect_vpn status = true ↔ ∃ k < 10, statusBad (status k) = true := by
    rw [disconnect_vpn, disconnectWaitLoop_true_iff status 10 0]
    constructor
    · rintro ⟨k, hk, h⟩
      exact ⟨k, hk, by simpa using h⟩
    · rintro ⟨k, hk, h⟩
      exact ⟨k, hk, by simpa using h⟩
  refine ⟨hiff, ?_, ?_⟩
  · intro k hk hbad
    exact hiff.mpr ⟨k, hk, hbad⟩
  · intro hall
    cases hval : disconnect_vpn status with
    | false => rfl
    | true =>
      obtain ⟨k, hk, hbad⟩ := hiff.mp hval
      rw [hall k hk] at hbad
      cases hbad

/-- Witness for C3: a fourth-poll `EXITING` succeeds; a run that stays
`CONNECTED` for all 10 polls fails. -/
theorem c3_disconnect_poll_witness :
    disconnect_vpn (fun k => if k = 3 then "EXITING" else "CONNECTED") = true
    ∧ disconnect_vpn (fun _ => "CONNECTED") = false := by
  constructor
  · exact (c3_disconnect_poll _).2.1 3 (by omega) (by decide)
  · exact (c3_disconnect_poll _).2.2 (fun k _ => by decide)

set_option maxRecDepth 20000 in
/-- C4: there is a status blob and a requested name (`home`) such that
no record has name exactly `home`, `home` is a prefix of another
configuration's name (`home-vpn2`), and the parser returns that other
record's state (`EXITING`) instead of `NOT_FOUND` — the substring match
on `name:<requested-name>` matches the wrong record. -/
theorem c4_prefix_collision :
    ("home" : String) ≠ "home-vpn2"
    ∧ "home".data.isPrefixOf "home-vpn2".data = true
    ∧ get_vpn_status "home" ⟨renderBlob [("EXITING", "home-vpn2")]⟩ = "EXITING"
    ∧ get_vpn_status "home" ⟨renderBlob [("EXITING", "home-vpn2")]⟩ ≠ "NOT_FOUND" := by
  refine ⟨by decide, by decide, by decide, by decide⟩

theorem get_yubikey_token_first (inputs : Nat → String) :
    ∀ (fuel i k : Nat), k < fuel →
      pyIsDigit ⟨pyStrip (inputs (i + k)).data⟩ = true →
      (⟨pyStrip (inputs (i + k)).data⟩ : String).length = 6 →
      (∀ j < k, ¬(pyIsDigit ⟨pyStrip (inputs (i + j)).data⟩ = true
          ∧ (⟨pyStrip (inputs (i + j)).data⟩ : String).length = 6)) →
      get_yubikey_token inputs i fuel = some ⟨pyStrip (inputs (i + k)).data⟩ := by
  intro fuel
  induction fuel with
  | zero =>
    intro i k hk
    omega
  | succ f ih =>
    intro i k hk hd hl hmin
    cases k with
    | zero =>
      rw [Nat.add_zero] at hd hl ⊢
      simp only [get_yubikey_token]
      rw [hd, hl]
      simp
    | succ k' =>
      have h0 := hmin 0 (by omega)
      rw [Nat.add_zero] at h0
      have hcond : (pyIsDigit ⟨pyStrip (inputs i).data⟩
          && decide ((⟨pyStrip (inputs i).data⟩ : String).length = 6)) = false := by
        cases h1 : pyIsDigit ⟨pyStrip (inputs i).data⟩ with
        | false => simp
        | true =>
          have h2 : ¬((⟨pyStrip (inputs i).data⟩ : String).length = 6) :=
            fun h2 => h0 ⟨h1, h2⟩
          rw [Bool.true_and]
          exact decide_eq_false h2
      simp only [get_yubikey_token, hcond]
      rw [show i + (k' + 1) = i + 1 + k' from by omega] at hd hl ⊢
      refine ih (i + 1) k' (by omega) hd hl ?_
      intro j hj
      have := hmin (j + 1) (by omega)
      rwa [show i + (j + 1) = i + 1 + j from by omega] at this

theorem get_yubikey_token_valid (inputs : Nat → String) :
    ∀ (fuel i : Nat) (t : String), get_yubikey_token inputs i fuel = some t →
      pyIsDigit t = true ∧ t.length = 6 := by
  intro fuel
  induction fuel with
  | zero =>
    intro i t h
    cases h
  | succ f ih =>
    intro i t h
    simp only [get_yubikey_token] at h
    by_cases hc : (pyIsDigit ⟨pyStrip (inputs i).data⟩
        && decide ((⟨pyStrip (inputs i).data⟩ : String).length = 6)) = true
    · rw [if_pos hc] at h
      cases h
      rw [Bool.and_eq_true, decide_eq_true_iff] at hc
      exact hc
    · rw [if_neg hc] at h
      exact ih (i + 1) t h

/-- C5: the token prompt loop returns the first input whose stripped
text is exactly 6 digits, rejecting every earlier input, and any value
it returns is a 6-digit string.  The source loop is unbounded
(`while True`), so the embedding is fuel-indexed: the result holds for
every fuel large enough to reach the first valid input, and the
validity of any returned token holds for every fuel. -/
theorem c5_token_loop :
    (∀ (inputs : Nat → String) (fuel k : Nat), k < fuel →
      pyIsDigit ⟨pyStrip (inputs k).data⟩ = true →
      (⟨pyStrip (inputs k).data⟩ : String).length = 6 →
      (∀ j < k, ¬(pyIsDigit ⟨pyStrip (inputs j).data⟩ = true
          ∧ (⟨pyStrip (inputs j).data⟩ : String).length = 6)) →
      get_yubikey_token inputs 0 fuel = some ⟨pyStrip (inputs k).data⟩)
    ∧ (∀ (inputs : Nat → String) (fuel : Nat) (t : String),
      get_yubikey_token inputs 0 fuel = some t → pyIsDigit t = true ∧ t.length = 6) := by
  constructor
  · intro inputs fuel k hk hd hl hmin
    have := get_yubikey_token_first inputs fuel 0 k hk
      (by simpa using hd) (by simpa using hl)
      (fun j hj => by simpa using hmin j hj)
    simpa using this
  · intro inputs fuel t h
    exact get_yubikey_token_valid inputs fuel 0 t h

/-- Witness for C5: with inputs `12345`, `abcdef`, `1234567` and then
`" 042018 "`, the loop rejects the first three and returns the stripped
fourth. -/
theorem c5_token_loop_witness :
    get_yubikey_token
        (fun n => if n = 0 then "12345" else if n = 1 then "abcdef"
          else if n = 2 then "1234567" else " 042018 ") 0 10
      = some "042018" := by
  have := c5_token_loop.1
    (fun n => if n = 0 then "12345" else if n = 1 then "abcdef"
      else if n = 2 then "1234567" else " 042018 ") 10 3
    (by omega) (by decide) (by decide) (by decide)
  exact this.trans (by decide)

/-- C6: the reconnect counter of a monitor cycle is reset to 0 exactly
when the polled status is `CONNECTED`, incremented by exactly 1 when a
reconnect attempt runs and succeeds, and unchanged otherwise (including
interrupt and exception cycles); it never decreases except by the reset
to 0.  Stated for an arbitrary state, hence for every reachable one. -/
theorem c6_reconnect_counter (st : MonState) (status : String)
    (internet connectOk sigB sigS : Bool) :
    (status = "CONNECTED" →
      (monStep st (.normal status internet connectOk sigB sigS)).st.reconnect_count = 0)
    ∧ (status ≠ "CONNECTED" → internet = true → connectOk = true →
      (monStep st (.normal status internet connectOk sigB sigS)).st.reconnect_count
        = st.reconnect_count + 1)
    ∧ (status ≠ "CONNECTED" → (internet = false ∨ connectOk = false) →
      (monStep st (.normal status internet connectOk sigB sigS)).st.reconnect_count
        = st.reconnect_count)
    ∧ ((monStep st (.normal status internet connectOk sigB sigS)).st.reconnect_count = 0
      ∨ st.reconnect_count
          ≤ (monStep st (.normal status internet connectOk sigB sigS)).st.reconnect_count)
    ∧ (monStep st CycleOutcome.interrupt).st.reconnect_count = st.reconnect_count
    ∧ (monStep st CycleOutcome.exc).st.reconnect_count = st.reconnect_count := by
  refine ⟨?_, ?_, ?_, ?_, rfl, rfl⟩
  · intro h
    simp [monStep, nextCount, h]
  · intro h1 h2 h3
    simp [monStep, nextCount, h1, h2, h3]
  · intro h1 h2
    rcases h2 with h | h
    · simp [monStep, nextCount, h1, h]
    · cases hi : internet with
      | false => simp [monStep, nextCount, h1, hi]
      | true => simp [monStep, nextCount, h1, hi, h]
  · simp only [monStep, nextCount]
    split_ifs <;> omega

/-- Witness for C6: from a state with counter 5, a `CONNECTED` cycle
resets to 0, a successful reconnect cycle goes to 6, and a cycle with
no reachability keeps 5. -/
theorem c6_reconnect_counter_witness :
    (monStep ⟨true, 5⟩ (.normal "CONNECTED" true true false false)).st.reconnect_count = 0
    ∧ (monStep ⟨true, 5⟩ (.normal "EXITING" true true false false)).st.reconnect_count = 6
    ∧ (monStep ⟨true, 5⟩ (.normal "EXITING" false true false false)).st.reconnect_count = 5 :=
  ⟨(c6_reconnect_counter ⟨true, 5⟩ "CONNECTED" true true false false).1 rfl,
    (c6_reconnect_counter ⟨true, 5⟩ "EXITING" true true false false).2.1 (by decide) rfl rfl,
    (c6_reconnect_counter ⟨true, 5⟩ "EXITING" false true false false).2.2.1
      (by decide) (Or.inl rfl)⟩

theorem monRun_stopped (st : MonState) (is : List CycleOutcome) (h : st.running = false) :
    monRun st is = (st, 0) := by
  cases is with
  | nil => rfl
  | cons i rest => simp [monRun, h]

theorem monRun_cons (st : MonState) (inp : CycleOutcome) (rest : List CycleOutcome) :
    monRun st (inp :: rest)
      = if st.running
          then (if (monStep st inp).brk then ((monStep st inp).st, 1)
            else ((monRun (monStep st inp).st rest).1, (monRun (monStep st inp).st rest).2 + 1))
          else (st, 0) := rfl

/-- C8: once the running flag is cleared no new cycle starts (zero
further polls); and a cycle during whose body the signal arrives skips
the interval sleep and is the last cycle, likewise a signal during the
sleep prevents any further cycle. -/
theorem c8_shutdown_flag :
    (∀ (st : MonState) (is : List CycleOutcome), st.running = false → monRun st is = (st, 0))
    ∧ (∀ (st : MonState) (status : String) (internet connectOk : Bool)
        (rest : List CycleOutcome), st.running = true →
      (monStep st (.normal status internet connectOk true false)).slept = false
      ∧ monRun st (.normal status internet connectOk true false :: rest)
          = ((monStep st (.normal status internet connectOk true false)).st, 1))
    ∧ (∀ (st : MonState) (status : String) (internet connectOk : Bool)
        (rest : List CycleOutcome), st.running = true →
      monRun st (.normal status internet connectOk false true :: rest)
        = ((monStep st (.normal status internet connectOk false true)).st, 1)) := by
  refine ⟨monRun_stopped, ?_, ?_⟩
  · intro st status net ok rest h
    have hrun : (monStep st (.normal status net ok true false)).st.running = false := by
      simp [monStep]
    constructor
    · simp [monStep]
    · rw [monRun_cons, if_pos h, if_neg (by simp [monStep]), monRun_stopped _ rest hrun]
  · intro st status net ok rest h
    have hrun : (monStep st (.normal status net ok false true)).st.running = false := by
      simp [monStep]
    rw [monRun_cons, if_pos h, if_neg (by simp [monStep]), monRun_stopped _ rest hrun]

/-- Witness for C8: a stopped monitor runs no cycle, and a running
monitor receiving the signal during a cycle body performs that one
cycle without the interval sleep and stops. -/
theorem c8_shutdown_flag_witness :
    monRun ⟨false, 0⟩ [CycleOutcome.exc, CycleOutcome.exc] = (⟨false, 0⟩, 0)
    ∧ (monStep ⟨true, 2⟩ (.normal "EXITING" false false true false)).slept = false
    ∧ monRun ⟨true, 2⟩ [.normal "EXITING" false false true false, CycleOutcome.exc]
        = ((monStep ⟨true, 2⟩ (.normal "EXITING" false false true false)).st, 1) :=
  ⟨c8_shutdown_flag.1 ⟨false, 0⟩ [CycleOutcome.exc, CycleOutcome.exc] rfl,
    (c8_shutdown_flag.2.1 ⟨true, 2⟩ "EXITING" false false [CycleOutcome.exc] rfl).1,
    (c8_shutdown_flag.2.1 ⟨true, 2⟩ "EXITING" false false [CycleOutcome.exc] rfl).2⟩

/-- C9: a non-interrupt exception in the cycle body leaves the state
unchanged (running still true, counter untouched), does not break the
loop, and the loop continues with the remaining cycles; more generally
a run without interrupts and without signals never stops: it executes
every cycle and ends with the running flag still true. -/
theorem c9_exception_path :
    (∀ st : MonState, st.running = true →
      (monStep st CycleOutcome.exc).st = st
      ∧ (monStep st CycleOutcome.exc).brk = false
      ∧ (monStep st CycleOutcome.exc).st.running = true)
    ∧ (∀ (st : MonState) (rest : List CycleOutcome), st.running = true →
      monRun st (CycleOutcome.exc :: rest) = ((monRun st rest).1, (monRun st rest).2 + 1))
    ∧ (∀ (st : MonState) (is : List CycleOutcome), st.running = true →
      (∀ i ∈ is, i ≠ CycleOutcome.interrupt ∧ noSignal i) →
      (monRun st is).1.running = true ∧ (monRun st is).2 = is.length) := by
  refine ⟨?_, ?_, ?_⟩
  · intro st h
    exact ⟨rfl, rfl, h⟩
  · intro st rest h
    rw [monRun_cons, if_pos h, if_neg (by simp [monStep])]
    rfl
  · intro st is
    induction is generalizing st with
    | nil =>
      intro h _
      exact ⟨h, rfl⟩
    | cons i rest ih =>
      intro h hall
      have hi := hall i (by simp)
      cases i with
      | normal status net ok sigB sigS =>
        obtain ⟨hB, hS⟩ := hi.2
        subst hB
        subst hS
        have hrun : (monStep st (.normal status net ok false false)).st.running = true := by
          simp [monStep, h]
        rw [monRun_cons, if_pos h, if_neg (by simp [monStep])]
        have := ih _ hrun (fun i' hi' => hall i' (by simp [hi']))
        exact ⟨this.1, by rw [this.2]; simp⟩
      | interrupt => exact absurd rfl hi.1
      | exc =>
        rw [monRun_cons, if_pos h, if_neg (by simp [monStep])]
        have hst : (monStep st CycleOutcome.exc).st = st := rfl
        rw [hst]
        have := ih st h (fun i' hi' => hall i' (by simp [hi']))
        exact ⟨this.1, by rw [this.2]; simp⟩

/-- Witness for C9: from a running state, an exception cycle followed
by two normal signal-free cycles executes all three cycles and leaves
the monitor running. -/
theorem c9_exception_path_witness :
    (monStep ⟨true, 1⟩ CycleOutcome.exc).st = ⟨true, 1⟩
    ∧ (monRun ⟨true, 1⟩
        [CycleOutcome.exc, .normal "CONNECTED" true true false false,
          .normal "EXITING" false false false false]).1.running = true
    ∧ (monRun ⟨true, 1⟩
        [CycleOutcome.exc, .normal "CONNECTED" true true false false,
          .normal "EXITING" false false false false]).2 = 3 :=
  ⟨((c9_exception_path.1 ⟨true, 1⟩ rfl).1),
    (c9_exception_path.2.2 ⟨true, 1⟩ _ rfl (by
      intro i hi
      simp only [List.mem_cons, List.not_mem_nil, or_false] at hi
      rcases hi with rfl | rfl | rfl
      · exact ⟨by decide, trivial⟩
      · exact ⟨by decide, rfl, rfl⟩
      · exact ⟨by decide, rfl, rfl⟩)).1,
    (c9_exception_path.2.2 ⟨true, 1⟩ _ rfl (by
      intro i hi
      simp only [List.mem_cons, List.not_mem_nil, or_false] at hi
      rcases hi with rfl | rfl | rfl
      · exact ⟨by decide, trivial⟩
      · exact ⟨by decide, rfl, rfl⟩
      · exact ⟨by decide, rfl, rfl⟩)).2⟩

/-- C7: storing a prefix and retrieving it for the same configuration
name returns exactly the stored string; retrieval against a vault that
was never written returns `none`; and a vault error during retrieval is
collapsed to `none` rather than raised. -/
theorem c7_vault_roundtrip :
    (∀ (vault : Vault) (name cred : String),
      get_stored_credentials (store_credentials vault name cred) name = some cred)
    ∧ (∀ name : String, get_stored_credentials emptyVault name = none)
    ∧ (∀ (vault : Vault) (name : String),
      vault ("tunnelblick_vpn_" ++ name) "prefix" = VaultResult.err →
      get_stored_credentials vault name = none) := by
  refine ⟨?_, fun name => rfl, ?_⟩
  · intro v name cred
    simp [get_stored_credentials, store_credentials]
  · intro v name h
    rw [get_stored_credentials, h]

/-- Witness for C7: round trip on a concrete name, and a vault raising
on every access retrieves as `none`. -/
theorem c7_vault_roundtrip_witness :
    get_stored_credentials (store_credentials emptyVault "home-vpn2" "hunter2") "home-vpn2"
      = some "hunter2"
    ∧ get_stored_credentials (fun _ _ => VaultResult.err) "home-vpn2" = none :=
  ⟨c7_vault_roundtrip.1 emptyVault "home-vpn2" "hunter2",
    c7_vault_roundtrip.2.2 (fun _ _ => VaultResult.err) "home-vpn2" rfl⟩

/-- C10 (implicit): an empty-string stored prefix is treated exactly
like an absent one: `start_monitoring` returns before the running flag
is ever set, and `test_connection` fails without prompting for a token
or attempting a connect. -/
theorem c10_empty_prefix_like_absent (vault : Vault) (name token : String)
    (connectOk : String → Bool)
    (h : get_stored_credentials vault name = none
      ∨ get_stored_credentials vault name = some "") :
    start_monitoring_init vault name = none
    ∧ test_connection vault name token connectOk = TestOutcome.noCredentials := by
  rcases h with h | h
  · exact ⟨by simp [start_monitoring_init, h, pyFalsyStrOpt], by simp [test_connection, h]⟩
  · exact ⟨by simp [start_monitoring_init, h, pyFalsyStrOpt], by simp [test_connection, h]⟩

/-- Witness for C10: a vault holding the empty string for the name
leads to the no-credentials outcome on both entry points. -/
theorem c10_empty_prefix_witness :
    start_monitoring_init (store_credentials emptyVault "home" "") "home" = none
    ∧ test_connection (store_credentials emptyVault "home" "") "home" "123456" (fun _ => true)
        = TestOutcome.noCredentials :=
  c10_empty_prefix_like_absent (store_credentials emptyVault "home" "") "home" "123456"
    (fun _ => true) (Or.inr (by decide))

end TbVpn
